import Mathlib

/-!
Verification of the UEPythonScripts asset-maintenance scripts.

The scripts operate on an Unreal Engine content repository through the
`unreal.EditorAssetLibrary` / `unreal.GlobalEditorUtilityBase` /
`unreal.ScopedSlowTask` collaborators.  We embed the repository as an explicit
state value and the collaborator calls as pure functions on that state, then
embed each script as a function from a state (plus the script's configuration
and the cooperative-cancellation signal) to a final state together with the
script's observable outputs (progress frames, log lines, returned lists).

Modelling conventions, stated once here:

* An asset is identified by its object path string (for example
  "/Game/Props/rock.rock"), which is what `list_assets` returns and what the
  scripts pass around.  Each asset also carries a stable `uid`, standing for
  the engine-internal object identity: renames preserve it, deletions remove
  it.  This ghost identity lets theorems say "the same entry is still
  present" after a batch that may have renamed it.
* `find_asset_data` on a path with no live asset returns an *invalid*
  `unreal.AssetData` in the engine; its `asset_name` / `object_path` render
  as a sentinel and its `.asset` / `get_asset()` is `None`.  We model the
  sentinel string as `""` and the missing object as `none`.
* `rename_asset(from, target)` fails (returns `False`, changing nothing) when
  no asset lives at `from` or when `target` already names a distinct existing
  asset; on success the engine keeps references working, which we model by
  substituting the new path for the old one in the reference pairs.  The
  scripts always build the target as `pkg + "/" + name + "." + name`, so the
  embedded rename takes the two components the script built the f-string
  from and renders the same string itself.
* `consolidate_assets(canonical, duplicates)` raises a `TypeError` when it is
  handed `None` (the `.asset` of an invalid `AssetData`) instead of an
  object; an uncaught exception aborts the script.  We model the raise as an
  `Except.error` that stops the embedded loop, as none of the scripts catch
  anything.
* Python's `str.startswith` is embedded as a prefix test on the character
  list of the string, which is extensionally the library function.
-/

/-- Python's `str.startswith(pre)`: `pre` is a prefix of `s`. -/
def strStartsWith (s pre : String) : Bool := pre.data.isPrefixOf s.data

/-- One live asset of the content repository: the `unreal.AssetData` fields the
scripts read (`object_path`, `asset_name`, `asset_class`, `package_path`),
plus the engine-internal object identity `uid` and the object properties
touched by the material scripts (material slot 0, material-instance parent). -/
structure Asset where
  uid : Nat
  path : String
  name : String
  klass : String
  pkg : String
  mat0 : Option Nat := none
  parentMat : Option Nat := none
deriving DecidableEq, Repr

/-- The content repository as the scripts observe it: the live assets, the
reference pairs `(referencer path, referenced path)`, the set of paths whose
referencer query raises (index corruption), and the uid supply for
`create_asset`. -/
structure RepoState where
  assets : List Asset
  refs : List (String × String)
  failing : List String := []
  nextUid : Nat := 1000
deriving DecidableEq, Repr

/-- `EditorAssetLibrary.list_assets(working_path, recursive=True,
include_folder=False)`: the object paths of the assets whose package lies
under the working path, in repository order. -/
def listAssets (wp : String) (s : RepoState) : List String :=
  (s.assets.filter (fun a => strStartsWith (a.pkg ++ "/") wp)).map (fun a => a.path)

/-- `EditorAssetLibrary.find_asset_data(path)`: the live asset at `path`,
if any. -/
def findAssetData (s : RepoState) (p : String) : Option Asset :=
  s.assets.find? (fun a => a.path == p)

/-- `find_asset_data(p).asset_name`, with `""` as the invalid-data sentinel. -/
def adName (s : RepoState) (p : String) : String :=
  match findAssetData s p with
  | some a => a.name
  | none => ""

/-- `find_asset_data(p).asset_class`, with `""` as the invalid-data sentinel. -/
def adClass (s : RepoState) (p : String) : String :=
  match findAssetData s p with
  | some a => a.klass
  | none => ""

/-- `find_asset_data(p).package_path`, with `""` as the invalid-data sentinel. -/
def adPkg (s : RepoState) (p : String) : String :=
  match findAssetData s p with
  | some a => a.pkg
  | none => ""

/-- `find_asset_data(p).object_path`, with `""` as the invalid-data sentinel. -/
def adPath (s : RepoState) (p : String) : String :=
  match findAssetData s p with
  | some a => a.path
  | none => ""

/-- `find_asset_data(p).asset` / `.get_asset()`: the loaded object, `none`
when the asset data is invalid. -/
def adObj (s : RepoState) (p : String) : Option Nat :=
  match findAssetData s p with
  | some a => some a.uid
  | none => none

/-- `get_name()` of a selected object. -/
def objName (s : RepoState) (u : Nat) : String :=
  match s.assets.find? (fun a => a.uid == u) with
  | some a => a.name
  | none => ""

/-- `get_path_name()` of a selected object. -/
def objPath (s : RepoState) (u : Nat) : String :=
  match s.assets.find? (fun a => a.uid == u) with
  | some a => a.path
  | none => ""

/-- `get_class()` of a selected object, by class name. -/
def objKlass (s : RepoState) (u : Nat) : String :=
  match s.assets.find? (fun a => a.uid == u) with
  | some a => a.klass
  | none => ""

/-- `find_package_referencers_for_asset(p, load_assets=False)`: the paths
referencing `p`; raises (modelled as `Except.error`) when the underlying
lookup cannot complete for `p`. -/
def findReferencers (s : RepoState) (p : String) : Except Unit (List String) :=
  if s.failing.contains p then .error ()
  else .ok ((s.refs.filter (fun r => r.2 == p)).map (fun r => r.1))

/-- The referencer set of `p` when the lookup completes. -/
def refsOf (s : RepoState) (p : String) : List String :=
  (s.refs.filter (fun r => r.2 == p)).map (fun r => r.1)

/-- `EditorAssetLibrary.delete_asset(p)`: removes the asset at `p` and every
reference pair touching it. -/
def deleteAsset (s : RepoState) (p : String) : RepoState :=
  { s with
    assets := s.assets.filter (fun a => !(a.path == p)),
    refs := s.refs.filter (fun r => !(r.1 == p) && !(r.2 == p)) }

/-- The object path the engine gives an asset named `n` in package `pkg`:
`pkg + "/" + n + "." + n`.  Every rename target f-string in the scripts has
this shape. -/
def renderPath (pkg n : String) : String := pkg ++ "/" ++ n ++ "." ++ n

/-- `EditorAssetLibrary.rename_asset(fromPath, target)` where the script
built `target` as `renderPath newPkg newName`.  Fails (second component
`false`, state unchanged) when nothing lives at `fromPath` or when the
target path already names a distinct existing asset; on success the asset is
moved and the reference pairs are rewritten to the new path. -/
def renameAsset (s : RepoState) (fromPath newPkg newName : String) :
    RepoState × Bool :=
  let target := renderPath newPkg newName
  match s.assets.find? (fun a => a.path == fromPath) with
  | none => (s, false)
  | some _ =>
    if s.assets.any (fun a => a.path == target && !(a.path == fromPath)) then
      (s, false)
    else
      ({ s with
          assets := s.assets.map (fun a =>
            if a.path == fromPath then
              { a with path := target, name := newName, pkg := newPkg }
            else a),
          refs := s.refs.map (fun r =>
            ((if r.1 == fromPath then target else r.1),
             (if r.2 == fromPath then target else r.2))) },
       true)

/-- A consolidation the scripts hand to `consolidate_assets`: the canonical
object and the duplicate objects, each `none` when it came from an invalid
`AssetData`. -/
abbrev COp := Option Nat × List (Option Nat)

/-- `EditorAssetLibrary.consolidate_assets(canonical, duplicates)`: repoints
every reference aimed at a duplicate to the canonical asset, then removes
the duplicates.  Raises (`Except.error`) when handed `None` for the
canonical or among the duplicates, or when the canonical object is not a
live asset. -/
def consolidateAssets (s : RepoState) (canonical : Option Nat)
    (dups : List (Option Nat)) : Except Unit RepoState :=
  match canonical with
  | none => .error ()
  | some c =>
    if dups.any (fun d => d.isNone) then .error ()
    else
      match s.assets.find? (fun a => a.uid == c) with
      | none => .error ()
      | some ca =>
        let dupUids := dups.filterMap id
        let dupPaths := (s.assets.filter (fun a => dupUids.contains a.uid)).map
          (fun a => a.path)
        .ok { s with
          assets := s.assets.filter (fun a => !(dupUids.contains a.uid)),
          refs := (s.refs.map (fun r =>
              (r.1, if dupPaths.contains r.2 then ca.path else r.2))).filter
            (fun r => !(dupPaths.contains r.1)) }

/-- `mesh.set_material(0, material)` on the object `o` (a no-op on `none`,
which never arises in the modelled runs). -/
def setMat0 (s : RepoState) (o : Option Nat) (mat : Nat) : RepoState :=
  match o with
  | none => s
  | some u =>
    { s with assets := s.assets.map (fun a =>
        if a.uid == u then { a with mat0 := some mat } else a) }

/-- `asset_tools.create_asset(name, pkg, None, factory)` with the
material-instance factory: adds a fresh `MaterialInstanceConstant` asset and
returns its object. -/
def createAsset (s : RepoState) (instName pkg : String) : RepoState × Nat :=
  let u := s.nextUid
  ({ s with
      assets := s.assets ++
        [{ uid := u, path := renderPath pkg instName, name := instName,
           klass := "MaterialInstanceConstant", pkg := pkg }],
      nextUid := u + 1 },
   u)

/-- `MaterialEditingLibrary.set_material_instance_parent(inst, base)`. -/
def setInstanceParent (s : RepoState) (o : Option Nat) (base : Nat) : RepoState :=
  match o with
  | none => s
  | some u =>
    { s with assets := s.assets.map (fun a =>
        if a.uid == u then { a with parentMat := some base } else a) }

/-- The cancellation signal that never fires. -/
def noCancel : Nat → Bool := fun _ => false

/-! ## Script embeddings -/

/-- Result of `ReportUnusedAssets.find_unused_assets`: the returned list, or
the uncaught exception from a failed referencer lookup. -/
def findUnusedLoop (s : RepoState) : List String → Except Unit (List String)
  | [] => .ok []
  | a :: rest =>
    match findReferencers s a with
    | .error e => .error e
    | .ok deps =>
      match findUnusedLoop s rest with
      | .error e => .error e
      | .ok tail => .ok (if deps.isEmpty then a :: tail else tail)

/-- `ReportUnusedAssets.find_unused_assets(working_path)`
(src/Assets/ReportUnusedAssets.py, lines 34-54): lists the scope, collects
and prints every asset whose referencer query comes back empty. -/
def find_unused_assets (wp : String) (s : RepoState) : Except Unit (List String) :=
  findUnusedLoop s (listAssets wp s)

/-- Observable outcome of a delete batch: final state, progress frames
entered, whether the slow-task break fired, whether an uncaught exception
aborted the loop, and the deletion log (the `>>> Deleting >>>` prints). -/
structure DeleteRun where
  state : RepoState
  progress : Nat
  cancelled : Bool
  errored : Bool
  deleted : List String
deriving DecidableEq, Repr

/-- The per-item loop of `DeleteUnusedAssets.delete_unused_assets`
(src/Assets/DeleteUnusedAssets.py, lines 49-59): query referencers, delete
when the query is empty, then check `should_cancel` and only afterwards
enter the progress frame.  `i` numbers the `should_cancel` samples. -/
def deleteLoop (cancel : Nat → Bool) : RepoState → List String → Nat → DeleteRun
  | s, [], _ => ⟨s, 0, false, false, []⟩
  | s, a :: rest, i =>
    match findReferencers s a with
    | .error _ => ⟨s, 0, false, true, []⟩
    | .ok deps =>
      let s' := if deps.isEmpty then deleteAsset s a else s
      let dl := if deps.isEmpty then [a] else []
      if cancel i then ⟨s', 0, true, false, dl⟩
      else
        let r := deleteLoop cancel s' rest (i + 1)
        ⟨r.state, r.progress + 1, r.cancelled, r.errored, dl ++ r.deleted⟩

/-- `DeleteUnusedAssets.delete_unused_assets(working_path)`
(src/Assets/DeleteUnusedAssets.py, lines 34-59). -/
def delete_unused_assets (wp : String) (s : RepoState) (cancel : Nat → Bool) :
    DeleteRun :=
  deleteLoop cancel s (listAssets wp s) 0

/-- Observable outcome of an archive batch: final state, progress frames,
break/exception flags, and the unconditional rename log of line 58 of
src/Assets/ArchiveUnusedAssets.py, as `(object_path, target_path_name)`. -/
structure ArchiveRun where
  state : RepoState
  progress : Nat
  cancelled : Bool
  errored : Bool
  renameLog : List (String × String)
deriving DecidableEq, Repr

/-- The per-item loop of `ArchiveUnusedAssets.archive_unused_assets`
(src/Assets/ArchiveUnusedAssets.py, lines 47-63): when the referencer query
is empty, rename the asset to `archive_path + name + "." + name` and log the
rename whether or not the engine accepted it; then check `should_cancel`,
then enter the progress frame.  `archiveRoot` is the script's `ARCHIVE_PATH`
without its trailing slash, so the engine target
`renderPath archiveRoot name` is the f-string
`archive_path + name + "." + name` of line 55. -/
def archiveLoop (archiveRoot : String) (cancel : Nat → Bool) :
    RepoState → List String → Nat → ArchiveRun
  | s, [], _ => ⟨s, 0, false, false, []⟩
  | s, a :: rest, i =>
    match findReferencers s a with
    | .error _ => ⟨s, 0, false, true, []⟩
    | .ok deps =>
      if deps.isEmpty then
        let n := adName s a
        let op := adPath s a
        let s' := (renameAsset s op archiveRoot n).1
        let entry := (op, renderPath archiveRoot n)
        if cancel i then ⟨s', 0, true, false, [entry]⟩
        else
          let r := archiveLoop archiveRoot cancel s' rest (i + 1)
          ⟨r.state, r.progress + 1, r.cancelled, r.errored, entry :: r.renameLog⟩
      else
        if cancel i then ⟨s, 0, true, false, []⟩
        else
          let r := archiveLoop archiveRoot cancel s rest (i + 1)
          ⟨r.state, r.progress + 1, r.cancelled, r.errored, r.renameLog⟩

/-- `ArchiveUnusedAssets.archive_unused_assets(working_path, archive_path)`
(src/Assets/ArchiveUnusedAssets.py, lines 31-63). -/
def archive_unused_assets (wp archiveRoot : String) (s : RepoState)
    (cancel : Nat → Bool) : ArchiveRun :=
  archiveLoop archiveRoot cancel s (listAssets wp s) 0

/-- The `PREFIXES` table of src/Assets/PrefixAllAssets.py, lines 29-49. -/
def PFX_TABLE : List (String × String) :=
  [("AnimBlueprint", "animBP"),
   ("AnimSequence", "anim"),
   ("Animation", "anim"),
   ("BlendSpace1D", "animBlnd"),
   ("Blueprint", "bp"),
   ("CurveFloat", "crvF"),
   ("CurveLinearColor", "crvL"),
   ("Material", "mat"),
   ("MaterialFunction", "mat_func"),
   ("MaterialInstance", "mat_inst"),
   ("ParticleSystem", "fx"),
   ("PhysicsAsset", "phsx"),
   ("SkeletalMesh", "sk"),
   ("Skeleton", "skln"),
   ("SoundCue", "cue"),
   ("SoundWave", "wv"),
   ("StaticMesh", "sm"),
   ("Texture2D", "tex"),
   ("TextureCube", "HDRI")]

/-- `PrefixAllAssets.get_proper_prefix(class_name)`
(src/Assets/PrefixAllAssets.py, lines 60-69): `PREFIXES.get(class_name, "")`. -/
def properPfx (className : String) : String :=
  match PFX_TABLE.find? (fun e => e.1 == className) with
  | some e => e.2
  | none => ""

/-- Observable outcome of a naming-rule rename batch: final state, the
attempted renames (the unconditional print of line 98, as
`(asset_path_name, target_path_name)`), the attempted renames the engine
rejected (the script discards the return value; this is the ghost record of
those rejections), progress frames, and the break flag. -/
structure PfxRun where
  state : RepoState
  planned : List (String × String)
  failed : List (String × String)
  progress : Nat
  cancelled : Bool
deriving DecidableEq, Repr

/-- The per-item loop of `PrefixAllAssets.main`
(src/Assets/PrefixAllAssets.py, lines 85-102): look the asset up live, fetch
the rule for its class, and when a rule exists and the name does not already
start with it, rename to `package_path + "/" + pfx + "_" + name + "." + ...`;
then check `should_cancel`, then enter the progress frame. -/
def pfxLoop (cancel : Nat → Bool) : RepoState → List String → Nat → PfxRun
  | s, [], _ => ⟨s, [], [], 0, false⟩
  | s, a :: rest, i =>
    let assetName := adName s a
    let p := properPfx (adClass s a)
    if p != "" && !(strStartsWith assetName p) then
      let newName := p ++ "_" ++ assetName
      let fromPath := adPath s a
      let pkgOnly := adPkg s a
      let res := renameAsset s fromPath pkgOnly newName
      let entry := (fromPath, renderPath pkgOnly newName)
      let fl := if res.2 then [] else [entry]
      if cancel i then ⟨res.1, [entry], fl, 0, true⟩
      else
        let r := pfxLoop cancel res.1 rest (i + 1)
        ⟨r.state, entry :: r.planned, fl ++ r.failed, r.progress + 1, r.cancelled⟩
    else
      if cancel i then ⟨s, [], [], 0, true⟩
      else
        let r := pfxLoop cancel s rest (i + 1)
        ⟨r.state, r.planned, r.failed, r.progress + 1, r.cancelled⟩

/-- `PrefixAllAssets.main()` over an explicit working path
(src/Assets/PrefixAllAssets.py, lines 72-102). -/
def pfx_all_assets (wp : String) (s : RepoState) (cancel : Nat → Bool) : PfxRun :=
  pfxLoop cancel s (listAssets wp s) 0

/-- Observable outcome of the reorganize-by-type batch: final state, the
attempted renames as `(object_path, target_path_name)`, progress frames,
and the break flag. -/
structure OrganizeRun where
  state : RepoState
  renameLog : List (String × String)
  progress : Nat
  cancelled : Bool
deriving DecidableEq, Repr

/-- The per-item loop of `OrganizeAssetsPerType.organize_assets_by_type`
(src/Assets/OrganizeAssetsPerType.py, lines 43-54): rename every asset to
`"/Game/" + asset_class + "/" + name + "." + name` — the scan root is not
part of the target — then check `should_cancel`, then enter the progress
frame. -/
def organizeLoop (cancel : Nat → Bool) : RepoState → List String → Nat → OrganizeRun
  | s, [], _ => ⟨s, [], 0, false⟩
  | s, a :: rest, i =>
    let n := adName s a
    let k := adClass s a
    let fromPath := adPath s a
    let s' := (renameAsset s fromPath ("/Game/" ++ k) n).1
    let entry := (fromPath, renderPath ("/Game/" ++ k) n)
    if cancel i then ⟨s', [entry], 0, true⟩
    else
      let r := organizeLoop cancel s' rest (i + 1)
      ⟨r.state, entry :: r.renameLog, r.progress + 1, r.cancelled⟩

/-- `OrganizeAssetsPerType.organize_assets_by_type(working_path)`
(src/Assets/OrganizeAssetsPerType.py, lines 28-54). -/
def organize_assets_by_type (wp : String) (s : RepoState) (cancel : Nat → Bool) :
    OrganizeRun :=
  organizeLoop cancel s (listAssets wp s) 0

/-- Observable outcome of the all-assets duplicate-unification batch: final
state, the consolidations the engine accepted, the consolidation attempt
that raised (aborting the script), progress frames, break flag. -/
structure UnifyAllRun where
  state : RepoState
  ops : List COp
  crashed : Option COp
  progress : Nat
  cancelled : Bool
deriving DecidableEq, Repr

/-- The per-item loop of `UnifyAllAssetsDuplicates.unify_duplicates`
(src/Assets/UnifyAllAssetsDuplicates.py, lines 43-64): re-fetch the item's
asset data live, collect every listed path whose live `asset_name` equals
the item's and whose path differs from the item's `object_path`, and when
that set is non-empty consolidate the matches into the item; then check
`should_cancel`, then enter the progress frame.  `allAssets` is the one
captured path list the comprehension of lines 49-53 iterates over. -/
def unifyAllLoop (allAssets : List String) (cancel : Nat → Bool) :
    RepoState → List String → Nat → UnifyAllRun
  | s, [], _ => ⟨s, [], none, 0, false⟩
  | s, a :: rest, i =>
    let pName := adName s a
    let pObj := adObj s a
    let pPath := adPath s a
    let matching := (allAssets.filter
        (fun b => adName s b == pName && !(b == pPath))).map (adObj s)
    if matching.isEmpty then
      if cancel i then ⟨s, [], none, 0, true⟩
      else
        let r := unifyAllLoop allAssets cancel s rest (i + 1)
        ⟨r.state, r.ops, r.crashed, r.progress + 1, r.cancelled⟩
    else
      match consolidateAssets s pObj matching with
      | .error _ => ⟨s, [], some (pObj, matching), 0, false⟩
      | .ok s' =>
        if cancel i then ⟨s', [(pObj, matching)], none, 0, true⟩
        else
          let r := unifyAllLoop allAssets cancel s' rest (i + 1)
          ⟨r.state, (pObj, matching) :: r.ops, r.crashed, r.progress + 1,
           r.cancelled⟩

/-- `UnifyAllAssetsDuplicates.unify_duplicates(working_path)`
(src/Assets/UnifyAllAssetsDuplicates.py, lines 28-64). -/
def unify_duplicates (wp : String) (s : RepoState) (cancel : Nat → Bool) :
    UnifyAllRun :=
  unifyAllLoop (listAssets wp s) cancel s (listAssets wp s) 0

/-- Every consolidation the batch handed to the engine, the aborting one
included. -/
def UnifyAllRun.attempted (r : UnifyAllRun) : List COp :=
  r.ops ++ r.crashed.toList

/-- Observable outcome of the selected-asset duplicate-unification: final
state, the matches collected by the scan, the consolidation performed after
the scan (if any), progress frames, break flag. -/
structure UnifySelRun where
  state : RepoState
  matching : List (Option Nat)
  op : Option (Nat × List (Option Nat))
  progress : Nat
  cancelled : Bool
deriving DecidableEq, Repr

/-- The scan loop of `UnifyAssetDuplicates.unify_selected_asset_duplicates`
(src/Assets/UnifyAssetDuplicates.py, lines 54-65): collect every listed
path whose live name equals the selected asset's name and whose path
differs from the selected asset's path; `should_cancel` may break the scan.
Returns the collected objects, the progress count and the break flag. -/
def unifySelScan (selName selPath : String) (s : RepoState)
    (cancel : Nat → Bool) :
    List String → Nat → List (Option Nat) × Nat × Bool
  | [], _ => ([], 0, false)
  | a :: rest, i =>
    let matched := if adName s a == selName && !(a == selPath) then
        [adObj s a]
      else []
    if cancel i then (matched, 0, true)
    else
      let r := unifySelScan selName selPath s cancel rest (i + 1)
      (matched ++ r.1, r.2.1 + 1, r.2.2)

/-- `UnifyAssetDuplicates.unify_selected_asset_duplicates(selected, wp)`
(src/Assets/UnifyAssetDuplicates.py, lines 34-71): scan for same-named
assets, then — after the scan, whether or not it was cancelled — when any
match was collected, consolidate the matches into the selected asset. -/
def unify_selected_asset_duplicates (sel : Nat) (wp : String) (s : RepoState)
    (cancel : Nat → Bool) : UnifySelRun :=
  let selName := objName s sel
  let selPath := objPath s sel
  let scan := unifySelScan selName selPath s cancel (listAssets wp s) 0
  let matching := scan.1
  if matching.isEmpty then
    ⟨s, matching, none, scan.2.1, scan.2.2⟩
  else
    match consolidateAssets s (some sel) matching with
    | .error _ => ⟨s, matching, some (sel, matching), scan.2.1, scan.2.2⟩
    | .ok s' => ⟨s', matching, some (sel, matching), scan.2.1, scan.2.2⟩

/-- Outcome marker for the interactively-scoped entry points: either the
operation ran, or it was aborted on its selection precondition with the
script's error log line. -/
inductive MainOutcome where
  | ok
  | preconditionFailure
deriving DecidableEq, Repr

/-- `UnifyAssetDuplicates.main()` (src/Assets/UnifyAssetDuplicates.py,
lines 74-85): with a non-empty selection, unify the first selected asset's
duplicates; otherwise log ">>> No asset selected..." and do nothing. -/
def unify_asset_duplicates_main (selection : List Nat) (wp : String)
    (s : RepoState) (cancel : Nat → Bool) : UnifySelRun × MainOutcome :=
  match selection with
  | sel :: _ => (unify_selected_asset_duplicates sel wp s cancel, .ok)
  | [] => (⟨s, [], none, 0, false⟩, .preconditionFailure)

/-- Observable outcome of the material-assignment script: final state,
outcome marker, the collected mesh objects, progress frames, break flag. -/
structure AssignRun where
  state : RepoState
  outcome : MainOutcome
  matching : List (Option Nat)
  progress : Nat
  cancelled : Bool
deriving DecidableEq, Repr

/-- The scan loop of
`AssignMaterialToAllSimilarNamedMeshes.assign_material_to_similar_named_meshes`
(src/Materials/AssignMaterialToAllSimilarNamedMeshes.py, lines 65-78):
collect every listed asset with the selected mesh's name (path differing
from the selected mesh's) and the selected mesh's class; `should_cancel`
may break the scan. -/
def assignScan (selName selPath selKlass : String) (s : RepoState)
    (cancel : Nat → Bool) :
    List String → Nat → List (Option Nat) × Nat × Bool
  | [], _ => ([], 0, false)
  | a :: rest, i =>
    let matched := if adName s a == selName && !(a == selPath) &&
        adClass s a == selKlass then
        [adObj s a]
      else []
    if cancel i then (matched, 0, true)
    else
      let r := assignScan selName selPath selKlass s cancel rest (i + 1)
      (matched ++ r.1, r.2.1 + 1, r.2.2)

/-- The assignment loop of lines 80-82: assign the selected material to
slot 0 of every collected mesh. -/
def assignAll (mat : Nat) : RepoState → List (Option Nat) → RepoState
  | s, [] => s
  | s, m :: rest => assignAll mat (setMat0 s m mat) rest

/-- `assign_material_to_similar_named_meshes(working_path)`
(src/Materials/AssignMaterialToAllSimilarNamedMeshes.py, lines 36-82) with
the editor selection passed explicitly: fewer than two selected assets is a
precondition failure (error log, no mutation); otherwise scan for meshes
matching the first selected asset and then — whether or not the scan was
cancelled — assign the second selected asset to the selected mesh and every
collected match. -/
def assign_material_to_similar_named_meshes (selection : List Nat)
    (wp : String) (s : RepoState) (cancel : Nat → Bool) : AssignRun :=
  match selection with
  | selMesh :: selMat :: _ =>
    let selName := objName s selMesh
    let selKlass := objKlass s selMesh
    let selPath := objPath s selMesh
    let scan := assignScan selName selPath selKlass s cancel (listAssets wp s) 0
    let matching := some selMesh :: scan.1
    ⟨assignAll selMat s matching, .ok, matching, scan.2.1, scan.2.2⟩
  | _ => ⟨s, .preconditionFailure, [], 0, false⟩

/-- The creation loop of
`CreateInstancesOfSelectedMaterial.create_material_instances`
(src/Materials/CreateInstancesOfSelectedMaterial.py, lines 51-58):
`count` remaining iterations, `i` instances already created; each round
creates `baseName + "_inst_" + (i+1)` in `createdPath` and parents it to
the base material. -/
def createInstLoop (baseName createdPath : String) (base : Nat) :
    RepoState → Nat → Nat → RepoState
  | s, 0, _ => s
  | s, Nat.succ k, i =>
    let instName := baseName ++ "_inst_" ++ toString (i + 1)
    let created := createAsset s instName createdPath
    let s' := setInstanceParent created.1 (some created.2) base
    createInstLoop baseName createdPath base s' k (i + 1)

/-- `create_material_instances(base_material, instance_count)`
(src/Materials/CreateInstancesOfSelectedMaterial.py, lines 34-58), with the
source's `created_assets_path` string surgery
(`path.replace(name, "").rstrip(".")`). -/
def create_material_instances (base : Nat) (count : Nat) (s : RepoState) :
    RepoState :=
  let baseName := objName s base
  let basePath := objPath s base
  let createdPath := (basePath.replace baseName "").dropRightWhile (fun c => c == '.')
  createInstLoop baseName createdPath base s count 0

/-- `CreateInstancesOfSelectedMaterial.main()`
(src/Materials/CreateInstancesOfSelectedMaterial.py, lines 61-75) with the
editor selection passed explicitly: an empty selection, or a first selected
asset that is not a `Material`, is a precondition failure (error log, no
mutation); otherwise create the configured number of instances. -/
def create_instances_main (selection : List Nat) (count : Nat)
    (s : RepoState) : RepoState × MainOutcome :=
  match selection with
  | [] => (s, .preconditionFailure)
  | base :: _ =>
    if objKlass s base == "Material" then
      (create_material_instances base count s, .ok)
    else (s, .preconditionFailure)

/-- Modelled from the spec (§4.5 Duplicate Resolver): the snapshot plan a
single-snapshot-generation batch would execute.  Groups the captured path
list by display name as recorded in the scan snapshot `s`, and produces,
for each group of size greater than one and in order of first appearance,
one consolidation of the group's later members into its first member.
`seen` carries the display names already grouped. -/
def specPlanLoop (s : RepoState) : List String → List String → List COp
  | [], _ => []
  | a :: rest, seen =>
    let nm := adName s a
    if seen.contains nm then specPlanLoop s rest seen
    else
      let dups := rest.filter (fun b => adName s b == nm)
      if dups.isEmpty then specPlanLoop s rest (nm :: seen)
      else (adObj s a, dups.map (adObj s)) :: specPlanLoop s rest (nm :: seen)

/-- Modelled from the spec (§4.5, §3 invariant): the consolidations planned
against the single captured snapshot generation of the scan. -/
def specSnapshotPlan (wp : String) (s : RepoState) : List COp :=
  specPlanLoop s (listAssets wp s) []

/-! ## Concrete example states -/

/-- A plain asset with no references and default object properties. -/
def mkAsset (u : Nat) (pkg n k : String) : Asset :=
  { uid := u, path := renderPath pkg n, name := n, klass := k, pkg := pkg }

/-- A state whose only asset is a texture, for exercising the selection
preconditions. -/
def sC9 : RepoState :=
  { assets := [mkAsset 0 "/Game" "rock" "Texture2D"], refs := [] }

/-- A single texture under a scan root other than /Game, for the
reorganize-by-type target computation. -/
def sC8 : RepoState :=
  { assets := [mkAsset 0 "/Other" "rock" "Texture2D"], refs := [] }

/-- Two same-named orphan assets in different folders: their archive targets
collide. -/
def sC2 : RepoState :=
  { assets := [mkAsset 0 "/Game/A" "rock" "StaticMesh",
               mkAsset 1 "/Game/B" "rock" "StaticMesh"], refs := [] }

/-- Two orphan assets; the referencer lookup for the first raises. -/
def sC7 : RepoState :=
  { assets := [mkAsset 0 "/Game" "bad" "StaticMesh",
               mkAsset 1 "/Game" "b" "StaticMesh"],
    refs := [], failing := ["/Game/bad.bad"] }

/-- Two orphan assets for exercising the cancellation boundary. -/
def sC3 : RepoState :=
  { assets := [mkAsset 0 "/Game" "a" "StaticMesh",
               mkAsset 1 "/Game" "b" "StaticMesh"], refs := [] }

/-- An orphan plus an entry referenced from outside the scan scope. -/
def sC1 : RepoState :=
  { assets := [mkAsset 0 "/Game" "a" "StaticMesh",
               mkAsset 1 "/Game" "x" "StaticMesh"],
    refs := [("/Eng/r.r", "/Game/x.x")] }

/-- A scope where the only referencer of `x` is the in-scope orphan `y`,
which the delete batch processes first. -/
def sC1c : RepoState :=
  { assets := [mkAsset 0 "/Game" "y" "StaticMesh",
               mkAsset 1 "/Game" "x" "StaticMesh"],
    refs := [("/Game/y.y", "/Game/x.x")] }

/-- A selected mesh, a selected material, and two same-named meshes, one of
which the cancelled scan never reaches. -/
def sC10 : RepoState :=
  { assets := [mkAsset 0 "/Game/A" "m" "StaticMesh",
               mkAsset 5 "/Game" "mt" "Material",
               mkAsset 1 "/Game/B" "m" "StaticMesh",
               mkAsset 2 "/Game/C" "m" "StaticMesh"], refs := [] }

/-- The loop condition of PrefixAllAssets.main line 91, on an asset record:
a naming rule exists for the class and the name does not yet start with it. -/
def needsPfx (x : Asset) : Bool :=
  properPfx x.klass != "" && !(strStartsWith x.name (properPfx x.klass))

/-- The record a successful naming-rule rename produces (lines 92-97): the
name gains the rule's short string, the package stays, the object path is
re-rendered. -/
def pfxRename (x : Asset) : Asset :=
  { x with
    name := properPfx x.klass ++ "_" ++ x.name,
    path := renderPath x.pkg (properPfx x.klass ++ "_" ++ x.name) }

/-- The per-asset effect of one full naming-rule pass over the items `l`,
when every attempted rename succeeds. -/
def pfxStep (l : List String) (x : Asset) : Asset :=
  if l.contains x.path && needsPfx x then pfxRename x else x

/-- A compliant entry named by its rule, blocking the rename of its
non-compliant sibling. -/
def sC5 : RepoState :=
  { assets := [mkAsset 0 "/Game" "tex_rock" "Texture2D",
               mkAsset 1 "/Game" "rock" "Texture2D"], refs := [] }

/-- A single non-compliant texture with a free target. -/
def sC5w : RepoState :=
  { assets := [mkAsset 0 "/Game" "rock" "Texture2D"], refs := [] }

/-- Two same-named assets in different folders: a duplicate group. -/
def sC4 : RepoState :=
  { assets := [mkAsset 0 "/Game/A" "x" "StaticMesh",
               mkAsset 1 "/Game/B" "x" "StaticMesh"], refs := [] }

/-- Which assets are still live after the all-assets unification batch has
processed the items `pre` of the captured list `L`, starting from the scan
state `s0`: the later members of a duplicate group are removed once the
group's first listed member has been processed. -/
def aliveAfter (s0 : RepoState) (L pre : List String) (x : Asset) : Bool :=
  match L.filter (fun b => adName s0 b == x.name) with
  | h :: _ :: _ => !(pre.contains h && !(x.path == h) && L.contains x.path)
  | _ => true

/-- A three-member duplicate group in a clean repository. -/
def sC6 : RepoState :=
  { assets := [mkAsset 0 "/Game/A" "x" "StaticMesh",
               mkAsset 1 "/Game/B" "x" "StaticMesh",
               mkAsset 2 "/Game/C" "x" "StaticMesh"], refs := [] }

/-! ## Toolkit lemmas -/

/-- `find?` ignores a mapping that fixes every hit and preserves the
predicate everywhere. -/
theorem find?_map_congr {α : Type} (g : α → α) (q : α → Bool)
    (l : List α) (hq : ∀ x ∈ l, q (g x) = q x)
    (hfix : ∀ x ∈ l, q x = true → g x = x) :
    (l.map g).find? q = l.find? q := by
  induction l with
  | nil => rfl
  | cons x xs ih =>
    have hqx := hq x (List.mem_cons_self x xs)
    cases hx : q x with
    | true =>
      rw [List.map_cons, List.find?_cons_of_pos _ (by rw [hqx, hx]),
        List.find?_cons_of_pos _ hx, hfix x (List.mem_cons_self x xs) hx]
    | false =>
      rw [List.map_cons, List.find?_cons_of_neg _ (by simp [hqx, hx]),
        List.find?_cons_of_neg _ (by simp [hx])]
      exact ih (fun y hy => hq y (List.mem_cons_of_mem x hy))
        (fun y hy => hfix y (List.mem_cons_of_mem x hy))

/-- `find?` ignores a filter that keeps every hit. -/
theorem find?_filter_of_keep {α : Type} (keep q : α → Bool) (l : List α)
    (h : ∀ x ∈ l, q x = true → keep x = true) :
    (l.filter keep).find? q = l.find? q := by
  induction l with
  | nil => rfl
  | cons x xs ih =>
    have ih' := ih (fun y hy => h y (List.mem_cons_of_mem x hy))
    cases hx : q x with
    | true =>
      rw [List.filter_cons_of_pos (h x (List.mem_cons_self x xs) hx),
        List.find?_cons_of_pos _ hx, List.find?_cons_of_pos _ hx]
    | false =>
      cases hk : keep x with
      | true =>
        rw [List.filter_cons_of_pos hk, List.find?_cons_of_neg _ (by simp [hx]),
          List.find?_cons_of_neg _ (by simp [hx]), ih']
      | false =>
        rw [List.filter_cons_of_neg (by simp [hk]),
          List.find?_cons_of_neg _ (by simp [hx]), ih']

/-- A rename never changes the identity sequence of the live assets. -/
theorem renameAsset_uidList (s : RepoState) (fromPath pk n : String) :
    ((renameAsset s fromPath pk n).1.assets).map (fun a => a.uid) =
      s.assets.map (fun a => a.uid) := by
  unfold renameAsset
  cases hf : s.assets.find? (fun a => a.path == fromPath) with
  | none => rfl
  | some a0 =>
    dsimp only
    split
    · rfl
    · dsimp only
      rw [List.map_map]
      apply List.map_congr_left
      intro a _
      by_cases hp : a.path = fromPath <;> simp [hp]

/-- A rename leaves the asset data of any other live path unchanged. -/
theorem findAssetData_renameAsset_of_live (s : RepoState)
    (fromPath pk n p : String) (a : Asset) (hne : p ≠ fromPath)
    (hlive : findAssetData s p = some a) :
    findAssetData (renameAsset s fromPath pk n).1 p = some a := by
  have hmem : a ∈ s.assets := List.mem_of_find?_eq_some hlive
  have hpath : a.path = p := by
    have h2 := List.find?_some hlive
    simpa using h2
  unfold renameAsset
  cases hf : s.assets.find? (fun x => x.path == fromPath) with
  | none => exact hlive
  | some a0 =>
    dsimp only
    split
    · exact hlive
    · rename_i hcol
      have htne : ¬ (renderPath pk n = p) := by
        intro hteq
        exact hcol (List.any_eq_true.mpr
          ⟨a, hmem, by simp [hpath, hteq, hne]⟩)
      show List.find? _ (List.map _ _) = some a
      rw [find?_map_congr _ _ _ ?hq ?hfix]
      · exact hlive
      case hq =>
        intro x _
        by_cases hx : x.path = fromPath
        · simp [hx, Ne.symm hne, htne]
        · simp [hx]
      case hfix =>
        intro x _ hxq
        have hxp : x.path = p := by simpa using hxq
        rw [if_neg]
        simp [hxp, hne]

/-- An asset whose path is not the rename source survives a rename
untouched. -/
theorem mem_renameAsset_of_ne (s : RepoState) (fromPath pk n : String)
    (x : Asset) (hx : x ∈ s.assets) (hne : x.path ≠ fromPath) :
    x ∈ (renameAsset s fromPath pk n).1.assets := by
  unfold renameAsset
  cases hf : s.assets.find? (fun a => a.path == fromPath) with
  | none => exact hx
  | some a0 =>
    dsimp only
    split
    · exact hx
    · dsimp only
      have hfix : (fun a => if (a.path == fromPath) = true then
          { a with path := renderPath pk n, name := n, pkg := pk } else a) x = x := by
        simp [hne]
      rw [← hfix]
      exact List.mem_map_of_mem _ hx

/-- An asset whose path is not the deleted one survives a delete
untouched. -/
theorem mem_deleteAsset_of_ne (s : RepoState) (dp : String)
    (x : Asset) (hx : x ∈ s.assets) (hne : x.path ≠ dp) :
    x ∈ (deleteAsset s dp).assets := by
  unfold deleteAsset
  exact List.mem_filter.mpr ⟨hx, by simp [hne]⟩

/-- `renderPath` against a `/Game/<class>` package, written out flat. -/
theorem renderPath_game (k n : String) :
    renderPath ("/Game/" ++ k) n = "/Game/" ++ k ++ "/" ++ n ++ "." ++ n := by
  simp [renderPath, String.append_assoc]

/-! ## C9: interactive selection preconditions -/

/-- C9: for each interactively-scoped operation — single-entry duplicate
resolution, material-to-mesh assignment, material-instance creation — an
empty selection (or, for the assignment, a single-entry selection; for the
instance creation, a non-Material first selection) aborts the operation as
a precondition failure before any mutation: the outcome marker is the
failure report and the repository state is returned unchanged, never an
empty-result success. -/
theorem c9_selection_preconditions :
    (∀ wp s cancel,
      (unify_asset_duplicates_main [] wp s cancel).2 =
        MainOutcome.preconditionFailure ∧
      (unify_asset_duplicates_main [] wp s cancel).1.state = s) ∧
    (∀ wp s cancel,
      (assign_material_to_similar_named_meshes [] wp s cancel).outcome =
        MainOutcome.preconditionFailure ∧
      (assign_material_to_similar_named_meshes [] wp s cancel).state = s) ∧
    (∀ wp s cancel m,
      (assign_material_to_similar_named_meshes [m] wp s cancel).outcome =
        MainOutcome.preconditionFailure ∧
      (assign_material_to_similar_named_meshes [m] wp s cancel).state = s) ∧
    (∀ count s,
      (create_instances_main [] count s).2 = MainOutcome.preconditionFailure ∧
      (create_instances_main [] count s).1 = s) ∧
    (∀ count s base tailSel, objKlass s base ≠ "Material" →
      (create_instances_main (base :: tailSel) count s).2 =
        MainOutcome.preconditionFailure ∧
      (create_instances_main (base :: tailSel) count s).1 = s) := by
  refine ⟨fun wp s cancel => ⟨rfl, rfl⟩, fun wp s cancel => ⟨rfl, rfl⟩,
    fun wp s cancel m => ⟨rfl, rfl⟩, fun count s => ⟨rfl, rfl⟩, ?_⟩
  intro count s base tailSel hk
  simp only [create_instances_main]
  rw [if_neg (by simpa using hk)]
  exact ⟨rfl, rfl⟩

/-- C9 witness: the preconditions fire on concrete inputs — an empty
selection for each entry point, a one-element selection for the assignment,
and a texture selected where a material is required. -/
theorem c9_selection_preconditions_witness :
    ((unify_asset_duplicates_main [] "/Game/" sC9 noCancel).2 =
      MainOutcome.preconditionFailure ∧
      (unify_asset_duplicates_main [] "/Game/" sC9 noCancel).1.state = sC9) ∧
    ((assign_material_to_similar_named_meshes [] "/Game/" sC9 noCancel).outcome =
      MainOutcome.preconditionFailure) ∧
    ((assign_material_to_similar_named_meshes [0] "/Game/" sC9 noCancel).outcome =
      MainOutcome.preconditionFailure) ∧
    ((create_instances_main [] 10 sC9).2 = MainOutcome.preconditionFailure) ∧
    ((create_instances_main [0] 10 sC9).2 = MainOutcome.preconditionFailure ∧
      (create_instances_main [0] 10 sC9).1 = sC9) :=
  ⟨c9_selection_preconditions.1 "/Game/" sC9 noCancel,
   (c9_selection_preconditions.2.1 "/Game/" sC9 noCancel).1,
   (c9_selection_preconditions.2.2.1 "/Game/" sC9 noCancel 0).1,
   (c9_selection_preconditions.2.2.2.1 10 sC9).1,
   c9_selection_preconditions.2.2.2.2 10 sC9 0 [] (by decide)⟩

/-! ## C8: the reorganize-by-type target path -/

/-- Every rename the reorganize-by-type loop attempts carries an original
asset's own path as source and `"/Game/" + class + "/" + name + "." + name`
as target, as long as every pending item still resolves to an original
asset. -/
theorem organizeLoop_renameLog (cancel : Nat → Bool) (s0 : RepoState) :
    ∀ (l : List String) (st : RepoState) (i : Nat),
    (∀ b ∈ l, ∃ a, a ∈ s0.assets ∧ findAssetData st b = some a) →
    l.Nodup →
    ∀ e ∈ (organizeLoop cancel st l i).renameLog,
      ∃ a, a ∈ s0.assets ∧ e.1 = a.path ∧
        e.2 = "/Game/" ++ a.klass ++ "/" ++ a.name ++ "." ++ a.name := by
  intro l
  induction l with
  | nil => intro st i _ _ e he; simp [organizeLoop] at he
  | cons b rest ih =>
    intro st i hl hnd e he
    obtain ⟨a, hamem, hafind⟩ := hl b (List.mem_cons_self b rest)
    have hbpath : a.path = b := by
      have h2 := List.find?_some hafind
      simpa using h2
    have hname : adName st b = a.name := by simp [adName, hafind]
    have hklass : adClass st b = a.klass := by simp [adClass, hafind]
    have hpath : adPath st b = a.path := by simp [adPath, hafind]
    have hentry : (adPath st b, renderPath ("/Game/" ++ adClass st b) (adName st b)) =
        (a.path, "/Game/" ++ a.klass ++ "/" ++ a.name ++ "." ++ a.name) := by
      rw [hname, hklass, hpath, renderPath_game]
    simp only [organizeLoop] at he
    by_cases hc : cancel i = true
    · rw [if_pos hc] at he
      simp only [List.mem_singleton] at he
      exact ⟨a, hamem, by rw [he, hentry]; exact ⟨rfl, rfl⟩⟩
    · rw [if_neg hc] at he
      simp only [List.mem_cons] at he
      cases he with
      | inl he => exact ⟨a, hamem, by rw [he, hentry]; exact ⟨rfl, rfl⟩⟩
      | inr he =>
        refine ih _ (i + 1) ?_ (List.Nodup.of_cons hnd) e he
        intro b' hb'
        obtain ⟨a', ha'mem, ha'find⟩ := hl b' (List.mem_cons_of_mem b hb')
        refine ⟨a', ha'mem, ?_⟩
        rw [hpath, hbpath]
        exact findAssetData_renameAsset_of_live st b _ _ b' a'
          (fun hbb => (List.Nodup.not_mem hnd) (hbb ▸ hb')) ha'find

/-- With distinct asset paths, lookup by an asset's path finds that asset. -/
theorem find?_path_eq_some (l : List Asset) (a : Asset) (b : String)
    (hnd : (l.map (fun x => x.path)).Nodup) (ha : a ∈ l) (hb : a.path = b) :
    l.find? (fun x => x.path == b) = some a := by
  induction l with
  | nil => cases ha
  | cons x xs ih =>
    cases List.mem_cons.mp ha with
    | inl hax =>
      subst hax
      exact List.find?_cons_of_pos _ (by simp [hb])
    | inr hax =>
      have hxb : ¬ (x.path = b) := by
        intro hxb
        have hmm : x.path ∈ xs.map (fun y => y.path) := by
          rw [hxb, ← hb]
          exact List.mem_map_of_mem _ hax
        exact (List.nodup_cons.mp (by simpa using hnd)).1 hmm
      rw [List.find?_cons_of_neg _ (by simp [hxb])]
      exact ih (by simpa using (List.nodup_cons.mp (by simpa using hnd)).2) hax

/-- C8 (amended): for every entry processed by the reorganize-by-type batch,
the computed rename target is `"/Game/" + type_name + "/" + name + "." +
name` — the destination root is hardcoded to `/Game`, independent of the
scan root used to list the scope. -/
theorem c8_target_hardcodes_game_root (wp : String) (s : RepoState)
    (cancel : Nat → Bool) (hnd : (s.assets.map (fun a => a.path)).Nodup)
    (e : String × String)
    (he : e ∈ (organize_assets_by_type wp s cancel).renameLog) :
    ∃ a, a ∈ s.assets ∧ e.1 = a.path ∧
      e.2 = "/Game/" ++ a.klass ++ "/" ++ a.name ++ "." ++ a.name := by
  have hsub : (listAssets wp s).Nodup := by
    have : listAssets wp s = (s.assets.filter
        (fun a => strStartsWith (a.pkg ++ "/") wp)).map (fun a => a.path) := rfl
    rw [this]
    exact List.Nodup.sublist (List.Sublist.map _ (List.filter_sublist _)) hnd
  refine organizeLoop_renameLog cancel s (listAssets wp s) s 0 ?_ hsub e he
  intro b hb
  have : ∃ a, a ∈ s.assets.filter (fun a => strStartsWith (a.pkg ++ "/") wp) ∧
      a.path = b := by
    obtain ⟨a, ha, hab⟩ := List.mem_map.mp hb
    exact ⟨a, ha, hab⟩
  obtain ⟨a, haf, hab⟩ := this
  have hamem : a ∈ s.assets := List.mem_of_mem_filter haf
  exact ⟨a, hamem, find?_path_eq_some s.assets a b hnd hamem hab⟩

/-- C8 witness: on a one-texture repository under the scan root `/Other`,
the attempted rename is produced by an original asset and its target is the
hardcoded `/Game`-rooted path. -/
theorem c8_target_hardcodes_game_root_witness :
    ∃ a, a ∈ sC8.assets ∧
      ("/Other/rock.rock", "/Game/Texture2D/rock.rock").1 = a.path ∧
      ("/Other/rock.rock", "/Game/Texture2D/rock.rock").2 =
        "/Game/" ++ a.klass ++ "/" ++ a.name ++ "." ++ a.name :=
  c8_target_hardcodes_game_root "/Other" sC8 noCancel (by decide)
    ("/Other/rock.rock", "/Game/Texture2D/rock.rock") (by decide)

/-- C8 counterexample: under the scan root `/Other`, the reorganize-by-type
batch computes the target `/Game/Texture2D/rock.rock` for the entry named
`rock` of type `Texture2D`, which is not
`root + "/" + type_name + "/" + name`. -/
theorem c8_counterexample :
    (organize_assets_by_type "/Other" sC8 noCancel).renameLog =
      [("/Other/rock.rock", "/Game/Texture2D/rock.rock")] ∧
    ¬ ("/Game/Texture2D/rock.rock" =
        "/Other" ++ "/" ++ "Texture2D" ++ "/" ++ "rock") := by
  decide

/-! ## C2: rename collisions -/

/-- The archive batch never loses (or gains) a live asset: the identity
sequence is preserved through every step, whatever renames fail. -/
theorem archiveLoop_uidList (ar : String) (cancel : Nat → Bool) :
    ∀ (l : List String) (st : RepoState) (i : Nat),
    ((archiveLoop ar cancel st l i).state.assets).map (fun a => a.uid) =
      st.assets.map (fun a => a.uid) := by
  intro l
  induction l with
  | nil => intro st i; rfl
  | cons b rest ih =>
    intro st i
    simp only [archiveLoop]
    cases hfr : findReferencers st b with
    | error e => rfl
    | ok deps =>
      dsimp only
      by_cases hd : deps.isEmpty = true
      · rw [if_pos hd]
        by_cases hc : cancel i = true
        · rw [if_pos hc]
          exact renameAsset_uidList st (adPath st b) ar (adName st b)
        · rw [if_neg hc]
          dsimp only
          rw [ih _ (i + 1)]
          exact renameAsset_uidList st (adPath st b) ar (adName st b)
      · rw [if_neg hd]
        by_cases hc : cancel i = true
        · rw [if_pos hc]
        · rw [if_neg hc]
          exact ih _ (i + 1)

/-- The naming-rule batch never loses (or gains) a live asset either. -/
theorem pfxLoop_uidList (cancel : Nat → Bool) :
    ∀ (l : List String) (st : RepoState) (i : Nat),
    ((pfxLoop cancel st l i).state.assets).map (fun a => a.uid) =
      st.assets.map (fun a => a.uid) := by
  intro l
  induction l with
  | nil => intro st i; rfl
  | cons b rest ih =>
    intro st i
    simp only [pfxLoop]
    by_cases hp : (properPfx (adClass st b) != "" &&
        !(strStartsWith (adName st b) (properPfx (adClass st b)))) = true
    · rw [if_pos hp]
      by_cases hc : cancel i = true
      · rw [if_pos hc]
        exact renameAsset_uidList st (adPath st b) (adPkg st b) _
      · rw [if_neg hc]
        dsimp only
        rw [ih _ (i + 1)]
        exact renameAsset_uidList st (adPath st b) (adPkg st b) _
    · rw [if_neg hp]
      by_cases hc : cancel i = true
      · rw [if_pos hc]
      · rw [if_neg hc]
        exact ih _ (i + 1)

/-- C2 (amended): a target-path collision never destroys an entry.  Both the
orphan-archive batch and the naming-rule batch preserve the identity
sequence of the repository's entries for every starting state and every
cancellation signal: a rename whose computed target is already occupied
fails at the repository and the entry stays; no entry is overwritten or
removed.  (The scripts, however, do not skip the colliding op or report any
conflict: the counterexample shows both colliding renames being attempted
with no conflict record.) -/
theorem c2_collision_preserves_entries (wp ar : String) (s : RepoState)
    (cancel : Nat → Bool) :
    ((archive_unused_assets wp ar s cancel).state.assets).map (fun a => a.uid) =
      s.assets.map (fun a => a.uid) ∧
    ((pfx_all_assets wp s cancel).state.assets).map (fun a => a.uid) =
      s.assets.map (fun a => a.uid) :=
  ⟨archiveLoop_uidList ar cancel (listAssets wp s) s 0,
   pfxLoop_uidList cancel (listAssets wp s) s 0⟩

/-- C2 counterexample: two same-named orphans compute the same archive
target.  The batch attempts both renames (skipping neither), records no
conflict anywhere in its output, the repository rejects the second rename,
and afterwards both entries are still present — the first archived, the
second untouched at its original path. -/
theorem c2_collision_counterexample :
    (archive_unused_assets "/Game/" "/Game/_ARCHIVE" sC2 noCancel).renameLog =
      [("/Game/A/rock.rock", "/Game/_ARCHIVE/rock.rock"),
       ("/Game/B/rock.rock", "/Game/_ARCHIVE/rock.rock")] ∧
    (archive_unused_assets "/Game/" "/Game/_ARCHIVE" sC2 noCancel).state.assets =
      [{ uid := 0, path := "/Game/_ARCHIVE/rock.rock", name := "rock",
         klass := "StaticMesh", pkg := "/Game/_ARCHIVE" },
       mkAsset 1 "/Game/B" "rock" "StaticMesh"] := by
  decide

/-! ## C7: a failing referencer lookup -/

/-- A failing referencer lookup makes the report loop return the raised
exception, whatever comes after the failing entry. -/
theorem findUnusedLoop_error (st : RepoState) :
    ∀ (pre : List String) (bad : String) (post : List String),
    (∀ b ∈ pre, st.failing.contains b = false) →
    st.failing.contains bad = true →
    findUnusedLoop st (pre ++ bad :: post) = .error () := by
  intro pre
  induction pre with
  | nil =>
    intro bad post _ hbad
    have hfrbad : findReferencers st bad = .error () := by
      unfold findReferencers
      rw [if_pos hbad]
    simp only [List.nil_append, findUnusedLoop, hfrbad]
  | cons b pre' ih =>
    intro bad post hpre hbad
    have hb : st.failing.contains b = false := hpre b (List.mem_cons_self b pre')
    have hfr : findReferencers st b = .ok (refsOf st b) := by
      unfold findReferencers refsOf
      rw [if_neg (by rw [hb]; exact Bool.false_ne_true)]
    have hih := ih bad post (fun y hy => hpre y (List.mem_cons_of_mem b hy)) hbad
    simp only [List.cons_append, findUnusedLoop, hfr]
    rw [show pre'.append (bad :: post) = pre' ++ bad :: post from rfl, hih]

/-- A failing referencer lookup aborts the delete loop: the exception flag
is set, every asset not named among the already-processed items survives,
and only already-processed items were deleted. -/
theorem deleteLoop_error_aborts :
    ∀ (pre : List String) (st : RepoState) (i : Nat) (bad : String)
      (post : List String),
    (∀ b ∈ pre, st.failing.contains b = false) →
    st.failing.contains bad = true →
    (deleteLoop noCancel st (pre ++ bad :: post) i).errored = true ∧
    (∀ x ∈ st.assets, x.path ∉ pre →
      x ∈ (deleteLoop noCancel st (pre ++ bad :: post) i).state.assets) ∧
    (∀ d ∈ (deleteLoop noCancel st (pre ++ bad :: post) i).deleted, d ∈ pre) := by
  intro pre
  induction pre with
  | nil =>
    intro st i bad post _ hbad
    have hfrbad : findReferencers st bad = .error () := by
      unfold findReferencers
      rw [if_pos hbad]
    simp only [List.nil_append, deleteLoop, hfrbad]
    exact ⟨trivial, fun x hx _ => hx, fun d hd => absurd hd (List.not_mem_nil d)⟩
  | cons b pre' ih =>
    intro st i bad post hpre hbad
    have hb : st.failing.contains b = false := hpre b (List.mem_cons_self b pre')
    have hfr : findReferencers st b = .ok (refsOf st b) := by
      unfold findReferencers refsOf
      rw [if_neg (by rw [hb]; exact Bool.false_ne_true)]
    have hfail' : (if (refsOf st b).isEmpty then deleteAsset st b else st).failing =
        st.failing := by
      by_cases hre : (refsOf st b).isEmpty = true <;> simp [hre, deleteAsset]
    have ihr := ih (if (refsOf st b).isEmpty then deleteAsset st b else st) (i + 1)
      bad post (by rw [hfail']; exact fun y hy => hpre y (List.mem_cons_of_mem b hy))
      (by rw [hfail']; exact hbad)
    simp only [List.cons_append, deleteLoop, hfr]
    rw [if_neg (by simp [noCancel])]
    refine ⟨ihr.1, ?_, ?_⟩
    · intro x hx hxpre
      have hxb : x.path ≠ b := fun h => hxpre (h ▸ List.mem_cons_self b pre')
      have hxpre' : x.path ∉ pre' := fun h => hxpre (List.mem_cons_of_mem b h)
      refine ihr.2.1 x ?_ hxpre'
      by_cases hre : (refsOf st b).isEmpty = true
      · rw [if_pos hre]; exact mem_deleteAsset_of_ne st b x hx hxb
      · rw [if_neg hre]; exact hx
    · intro d hd
      simp only [List.mem_append] at hd
      cases hd with
      | inl hd =>
        by_cases hre : (refsOf st b).isEmpty = true
        · rw [if_pos hre] at hd
          simp only [List.mem_singleton] at hd
          exact hd ▸ List.mem_cons_self b pre'
        · rw [if_neg hre] at hd
          cases hd
      | inr hd => exact List.mem_cons_of_mem b (ihr.2.2 d hd)

/-- C7 (amended): a referencer-lookup failure during a batch scan is not
caught: the exception propagates and aborts both the report operation and
the delete batch at the failing entry.  No per-entry failure is recorded,
entries after the failing one are not resolved or processed, every asset
not named among the entries processed before the failure survives, and only
those earlier entries can have been deleted. -/
theorem c7_lookup_failure_aborts_batch (wp : String) (s : RepoState)
    (pre : List String) (bad : String) (post : List String)
    (hsplit : listAssets wp s = pre ++ bad :: post)
    (hpre : ∀ b ∈ pre, b ∉ s.failing)
    (hbad : bad ∈ s.failing) :
    find_unused_assets wp s = .error () ∧
    (delete_unused_assets wp s noCancel).errored = true ∧
    (∀ x ∈ s.assets, x.path ∉ pre →
      x ∈ (delete_unused_assets wp s noCancel).state.assets) ∧
    (∀ d ∈ (delete_unused_assets wp s noCancel).deleted, d ∈ pre) := by
  have hpre' : ∀ b ∈ pre, s.failing.contains b = false := by
    intro b hb
    simpa using hpre b hb
  have hbad' : s.failing.contains bad = true := by
    simpa using hbad
  have h1 : find_unused_assets wp s = .error () := by
    unfold find_unused_assets
    rw [hsplit]
    exact findUnusedLoop_error s pre bad post hpre' hbad'
  have h2 := deleteLoop_error_aborts pre s 0 bad post hpre' hbad'
  unfold delete_unused_assets
  rw [hsplit]
  exact ⟨h1, h2.1, h2.2.1, h2.2.2⟩

/-- C7 witness: on the two-orphan repository whose first lookup raises, the
amended behaviour is exhibited with no earlier processed entries. -/
theorem c7_lookup_failure_aborts_batch_witness :
    find_unused_assets "/Game/" sC7 = .error () ∧
    (delete_unused_assets "/Game/" sC7 noCancel).errored = true ∧
    (∀ x ∈ sC7.assets, x.path ∉ ([] : List String) →
      x ∈ (delete_unused_assets "/Game/" sC7 noCancel).state.assets) ∧
    (∀ d ∈ (delete_unused_assets "/Game/" sC7 noCancel).deleted,
      d ∈ ([] : List String)) :=
  c7_lookup_failure_aborts_batch "/Game/" sC7 [] "/Game/bad.bad"
    ["/Game/b.b"] (by decide) (by decide) (by decide)

/-- C7 counterexample: with the lookup for the first entry raising, the
report returns only the exception and the delete batch aborts; the second
entry is an orphan (empty referencer set) yet is neither reported nor
deleted, and no failure is recorded against the first entry — the failure
aborted processing of the rest of the batch. -/
theorem c7_counterexample :
    find_unused_assets "/Game/" sC7 = .error () ∧
    (delete_unused_assets "/Game/" sC7 noCancel).errored = true ∧
    (delete_unused_assets "/Game/" sC7 noCancel).deleted = [] ∧
    (delete_unused_assets "/Game/" sC7 noCancel).state = sC7 ∧
    refsOf sC7 "/Game/b.b" = [] :=
  ⟨rfl, by decide, by decide, by decide, by decide⟩

/-! ## C3: cancellation at an item boundary -/

/-- An engine object path is never the empty string. -/
theorem renderPath_ne_empty (pk n : String) : ¬ (renderPath pk n = "") := by
  intro h
  have h2 := congrArg String.length h
  rw [renderPath, String.length_append, String.length_append,
    String.length_append, String.length_append] at h2
  have h3 : "/".length = 1 := rfl
  have h4 : "".length = 0 := rfl
  omega

/-- A rename keeps every live path non-empty. -/
theorem renameAsset_paths_ne_empty (s : RepoState) (f pk n : String)
    (hwf : ∀ x ∈ s.assets, ¬ x.path = "") :
    ∀ x ∈ (renameAsset s f pk n).1.assets, ¬ x.path = "" := by
  unfold renameAsset
  cases hf : s.assets.find? (fun a => a.path == f) with
  | none => exact hwf
  | some a0 =>
    dsimp only
    split
    · exact hwf
    · dsimp only
      intro x hx
      obtain ⟨y, hy, hyx⟩ := List.mem_map.mp hx
      by_cases hyf : (y.path == f) = true
      · rw [if_pos hyf] at hyx
        rw [← hyx]
        exact renderPath_ne_empty pk n
      · rw [if_neg hyf] at hyx
        rw [← hyx]
        exact hwf y hy

/-- The live path of a listed item is either the item itself or the invalid
sentinel. -/
theorem adPath_eq_or_empty (s : RepoState) (b : String) :
    adPath s b = b ∨ adPath s b = "" := by
  unfold adPath
  cases hf : findAssetData s b with
  | none => exact Or.inr rfl
  | some a =>
    left
    have h2 := List.find?_some hf
    simpa using h2

/-- Membership in a conditional singleton forces the element. -/
theorem eq_of_mem_if_singleton {c : Prop} [Decidable c] {d b : String}
    (h : d ∈ if c then [b] else []) : d = b := by
  split at h
  · simpa using h
  · exact absurd h (List.not_mem_nil d)

/-- An asset at a different path survives a conditional delete. -/
theorem mem_if_deleteAsset (st : RepoState) (b : String) (x : Asset)
    (hx : x ∈ st.assets) (hne : x.path ≠ b) (c : Prop) [Decidable c] :
    x ∈ (if c then deleteAsset st b else st).assets := by
  split
  · exact mem_deleteAsset_of_ne st b x hx hne
  · exact hx

/-- Cancellation signalled at the `p`-th sample of the delete batch: the
batch stops right after fully processing item `p` (0-based), with exactly
`p` progress frames entered, the cancellation flag set, no exception, every
asset outside the first `p+1` items untouched, and only those items
deleted. -/
theorem deleteLoop_cancel_at (cancel : Nat → Bool) :
    ∀ (p : Nat) (l : List String) (st : RepoState) (i : Nat),
    p < l.length →
    (∀ b ∈ l, st.failing.contains b = false) →
    (∀ j, j < p → cancel (i + j) = false) →
    cancel (i + p) = true →
    (deleteLoop cancel st l i).progress = p ∧
    (deleteLoop cancel st l i).cancelled = true ∧
    (deleteLoop cancel st l i).errored = false ∧
    (∀ x ∈ st.assets, x.path ∉ l.take (p + 1) →
      x ∈ (deleteLoop cancel st l i).state.assets) ∧
    (∀ d ∈ (deleteLoop cancel st l i).deleted, d ∈ l.take (p + 1)) := by
  intro p
  induction p with
  | zero =>
    intro l st i hp hfail hbefore hat
    match l, hp with
    | b :: rest, _ =>
      have hb : st.failing.contains b = false := hfail b (List.mem_cons_self b rest)
      have hfr : findReferencers st b = .ok (refsOf st b) := by
        unfold findReferencers refsOf
        rw [if_neg (by rw [hb]; exact Bool.false_ne_true)]
      have hci : cancel i = true := by
        have h0 := hat
        rwa [Nat.add_zero] at h0
      simp only [deleteLoop, hfr]
      rw [if_pos hci]
      refine ⟨rfl, rfl, rfl, ?_, ?_⟩
      · intro x hx hxt
        have hxb : x.path ≠ b := by
          intro h
          rw [List.take_succ_cons] at hxt
          exact hxt (h ▸ List.mem_cons_self b _)
        exact mem_if_deleteAsset st b x hx hxb _
      · intro d hd
        rw [List.take_succ_cons]
        exact (eq_of_mem_if_singleton hd) ▸ List.mem_cons_self b _
  | succ q ih =>
    intro l st i hp hfail hbefore hat
    match l, hp with
    | b :: rest, hp =>
      have hb : st.failing.contains b = false := hfail b (List.mem_cons_self b rest)
      have hfr : findReferencers st b = .ok (refsOf st b) := by
        unfold findReferencers refsOf
        rw [if_neg (by rw [hb]; exact Bool.false_ne_true)]
      have hci : cancel i = false := by
        have h0 := hbefore 0 (Nat.succ_pos q)
        rwa [Nat.add_zero] at h0
      have hfail' : (if (refsOf st b).isEmpty then deleteAsset st b else st).failing =
          st.failing := by
        by_cases hre : (refsOf st b).isEmpty = true <;> simp [hre, deleteAsset]
      have ihr := ih rest (if (refsOf st b).isEmpty then deleteAsset st b else st)
        (i + 1) (Nat.lt_of_succ_lt_succ hp)
        (by rw [hfail']; exact fun y hy => hfail y (List.mem_cons_of_mem b hy))
        (by
          intro j hj
          rw [Nat.add_right_comm]
          exact hbefore (j + 1) (Nat.succ_lt_succ hj))
        (by
          rw [Nat.add_right_comm]
          exact hat)
      simp only [deleteLoop, hfr]
      rw [if_neg (by rw [hci]; exact Bool.false_ne_true)]
      refine ⟨by rw [ihr.1], ihr.2.1, ihr.2.2.1, ?_, ?_⟩
      · intro x hx hxt
        rw [List.take_succ_cons] at hxt
        have hxb : x.path ≠ b := by
          intro h
          exact hxt (h ▸ List.mem_cons_self b _)
        have hxt' : x.path ∉ rest.take (q + 1) :=
          fun h => hxt (List.mem_cons_of_mem b h)
        exact ihr.2.2.2.1 x (mem_if_deleteAsset st b x hx hxb _) hxt'
      · intro d hd
        simp only [List.mem_append] at hd
        rw [List.take_succ_cons]
        cases hd with
        | inl hd => exact (eq_of_mem_if_singleton hd) ▸ List.mem_cons_self b _
        | inr hd => exact List.mem_cons_of_mem b (ihr.2.2.2.2 d hd)

/-- A rename never changes the failing-lookup set. -/
theorem renameAsset_failing (s : RepoState) (f pk n : String) :
    (renameAsset s f pk n).1.failing = s.failing := by
  unfold renameAsset
  cases s.assets.find? (fun a => a.path == f) with
  | none => rfl
  | some a0 =>
    dsimp only
    split <;> rfl

/-- Cancellation signalled at the `p`-th sample of the archive batch: the
batch stops right after fully processing item `p` (0-based), with exactly
`p` progress frames entered, the cancellation flag set, no exception, and
every asset outside the first `p+1` items untouched (in particular not
renamed). -/
theorem archiveLoop_cancel_at (ar : String) (cancel : Nat → Bool) :
    ∀ (p : Nat) (l : List String) (st : RepoState) (i : Nat),
    p < l.length →
    (∀ b ∈ l, st.failing.contains b = false) →
    (∀ x ∈ st.assets, ¬ x.path = "") →
    (∀ j, j < p → cancel (i + j) = false) →
    cancel (i + p) = true →
    (archiveLoop ar cancel st l i).progress = p ∧
    (archiveLoop ar cancel st l i).cancelled = true ∧
    (archiveLoop ar cancel st l i).errored = false ∧
    (∀ x ∈ st.assets, x.path ∉ l.take (p + 1) →
      x ∈ (archiveLoop ar cancel st l i).state.assets) := by
  intro p
  induction p with
  | zero =>
    intro l st i hp hfail hwf hbefore hat
    match l, hp with
    | b :: rest, _ =>
      have hb : st.failing.contains b = false := hfail b (List.mem_cons_self b rest)
      have hfr : findReferencers st b = .ok (refsOf st b) := by
        unfold findReferencers refsOf
        rw [if_neg (by rw [hb]; exact Bool.false_ne_true)]
      have hci : cancel i = true := by
        have h0 := hat
        rwa [Nat.add_zero] at h0
      simp only [archiveLoop, hfr]
      have survive : ∀ x ∈ st.assets, x.path ∉ (b :: rest).take 1 →
          x ∈ (renameAsset st (adPath st b) ar (adName st b)).1.assets := by
        intro x hx hxt
        rw [List.take_succ_cons] at hxt
        have hxb : x.path ≠ b := by
          intro h
          exact hxt (h ▸ List.mem_cons_self b _)
        refine mem_renameAsset_of_ne st _ _ _ x hx ?_
        cases adPath_eq_or_empty st b with
        | inl h => rw [h]; exact hxb
        | inr h => rw [h]; exact hwf x hx
      by_cases hre : (refsOf st b).isEmpty = true
      · rw [if_pos hre, if_pos hci]
        exact ⟨rfl, rfl, rfl, survive⟩
      · rw [if_neg hre, if_pos hci]
        refine ⟨rfl, rfl, rfl, fun x hx _ => hx⟩
  | succ q ih =>
    intro l st i hp hfail hwf hbefore hat
    match l, hp with
    | b :: rest, hp =>
      have hb : st.failing.contains b = false := hfail b (List.mem_cons_self b rest)
      have hfr : findReferencers st b = .ok (refsOf st b) := by
        unfold findReferencers refsOf
        rw [if_neg (by rw [hb]; exact Bool.false_ne_true)]
      have hci : cancel i = false := by
        have h0 := hbefore 0 (Nat.succ_pos q)
        rwa [Nat.add_zero] at h0
      have hshift1 : ∀ j, j < q → cancel (i + 1 + j) = false := by
        intro j hj
        rw [Nat.add_right_comm]
        exact hbefore (j + 1) (Nat.succ_lt_succ hj)
      have hshift2 : cancel (i + 1 + q) = true := by
        rw [Nat.add_right_comm]
        exact hat
      simp only [archiveLoop, hfr]
      by_cases hre : (refsOf st b).isEmpty = true
      · rw [if_pos hre, if_neg (by rw [hci]; exact Bool.false_ne_true)]
        have hs' : (renameAsset st (adPath st b) ar (adName st b)).1.failing =
            st.failing := renameAsset_failing st _ ar _
        have ihr := ih rest (renameAsset st (adPath st b) ar (adName st b)).1
          (i + 1) (Nat.lt_of_succ_lt_succ hp)
          (by rw [hs']; exact fun y hy => hfail y (List.mem_cons_of_mem b hy))
          (renameAsset_paths_ne_empty st _ ar _ hwf)
          hshift1 hshift2
        refine ⟨by rw [ihr.1], ihr.2.1, ihr.2.2.1, ?_⟩
        intro x hx hxt
        rw [List.take_succ_cons] at hxt
        have hxb : x.path ≠ b := by
          intro h
          exact hxt (h ▸ List.mem_cons_self b _)
        have hxt' : x.path ∉ rest.take (q + 1) :=
          fun h => hxt (List.mem_cons_of_mem b h)
        refine ihr.2.2.2 x ?_ hxt'
        refine mem_renameAsset_of_ne st _ _ _ x hx ?_
        cases adPath_eq_or_empty st b with
        | inl h => rw [h]; exact hxb
        | inr h => rw [h]; exact hwf x hx
      · rw [if_neg hre, if_neg (by rw [hci]; exact Bool.false_ne_true)]
        have ihr := ih rest st (i + 1) (Nat.lt_of_succ_lt_succ hp)
          (fun y hy => hfail y (List.mem_cons_of_mem b hy)) hwf hshift1 hshift2
        refine ⟨by rw [ihr.1], ihr.2.1, ihr.2.2.1, ?_⟩
        intro x hx hxt
        rw [List.take_succ_cons] at hxt
        have hxt' : x.path ∉ rest.take (q + 1) :=
          fun h => hxt (List.mem_cons_of_mem b h)
        exact ihr.2.2.2 x hx hxt'

/-- C3 (amended): if the cooperative cancellation signal first returns true
at sample `p` (0-based; that is, after item `p+1` of the batch has been
fully processed), both the delete batch and the archive batch stop at that
item boundary: items `p+2..n` are untouched (every asset outside the first
`p+1` scope items survives unchanged, and only those items can have been
deleted), the cancellation flag is set and no exception occurred — but the
progress dialog records exactly `p` units, one fewer than the number of
items processed, because the script checks `should_cancel` before entering
the progress frame for the item it just processed. -/
theorem c3_cancellation_boundary (wp ar : String) (s : RepoState)
    (cancel : Nat → Bool) (p : Nat)
    (hp : p < (listAssets wp s).length)
    (hfail : ∀ b ∈ listAssets wp s, b ∉ s.failing)
    (hwf : ∀ x ∈ s.assets, ¬ x.path = "")
    (hbefore : ∀ j, j < p → cancel j = false)
    (hat : cancel p = true) :
    ((delete_unused_assets wp s cancel).progress = p ∧
     (delete_unused_assets wp s cancel).cancelled = true ∧
     (delete_unused_assets wp s cancel).errored = false ∧
     (∀ x ∈ s.assets, x.path ∉ (listAssets wp s).take (p + 1) →
       x ∈ (delete_unused_assets wp s cancel).state.assets) ∧
     (∀ d ∈ (delete_unused_assets wp s cancel).deleted,
       d ∈ (listAssets wp s).take (p + 1))) ∧
    ((archive_unused_assets wp ar s cancel).progress = p ∧
     (archive_unused_assets wp ar s cancel).cancelled = true ∧
     (archive_unused_assets wp ar s cancel).errored = false ∧
     (∀ x ∈ s.assets, x.path ∉ (listAssets wp s).take (p + 1) →
       x ∈ (archive_unused_assets wp ar s cancel).state.assets)) := by
  have hfail' : ∀ b ∈ listAssets wp s, s.failing.contains b = false := by
    intro b hb
    simpa using hfail b hb
  have hbefore' : ∀ j, j < p → cancel (0 + j) = false := by
    intro j hj
    rw [Nat.zero_add]
    exact hbefore j hj
  have hat' : cancel (0 + p) = true := by
    rw [Nat.zero_add]
    exact hat
  exact ⟨deleteLoop_cancel_at cancel p (listAssets wp s) s 0 hp hfail' hbefore' hat',
    archiveLoop_cancel_at ar cancel p (listAssets wp s) s 0 hp hfail' hwf
      hbefore' hat'⟩

/-- C3 witness: cancellation signalled at the very first sample of the
two-orphan repository — one item processed, zero progress frames, the
second item untouched. -/
theorem c3_cancellation_boundary_witness :
    ((delete_unused_assets "/Game/" sC3 (fun i => i == 0)).progress = 0 ∧
     (delete_unused_assets "/Game/" sC3 (fun i => i == 0)).cancelled = true ∧
     (delete_unused_assets "/Game/" sC3 (fun i => i == 0)).errored = false ∧
     (∀ x ∈ sC3.assets, x.path ∉ (listAssets "/Game/" sC3).take 1 →
       x ∈ (delete_unused_assets "/Game/" sC3 (fun i => i == 0)).state.assets) ∧
     (∀ d ∈ (delete_unused_assets "/Game/" sC3 (fun i => i == 0)).deleted,
       d ∈ (listAssets "/Game/" sC3).take 1)) ∧
    ((archive_unused_assets "/Game/" "/Game/_ARCHIVE" sC3 (fun i => i == 0)).progress = 0 ∧
     (archive_unused_assets "/Game/" "/Game/_ARCHIVE" sC3 (fun i => i == 0)).cancelled = true ∧
     (archive_unused_assets "/Game/" "/Game/_ARCHIVE" sC3 (fun i => i == 0)).errored = false ∧
     (∀ x ∈ sC3.assets, x.path ∉ (listAssets "/Game/" sC3).take 1 →
       x ∈ (archive_unused_assets "/Game/" "/Game/_ARCHIVE" sC3
         (fun i => i == 0)).state.assets)) :=
  c3_cancellation_boundary "/Game/" "/Game/_ARCHIVE" sC3 (fun i => i == 0) 0
    (by decide) (by decide) (by decide)
    (fun j hj => absurd hj (Nat.not_lt_zero j)) (by decide)

/-- C3 counterexample: with cancellation signalled right after the first
item of two is processed, the delete batch has deleted that item (one unit
of work done) yet its progress report shows zero units, not one: the claim
that the report shows exactly `k` processed units after `k` items is false
on the code, which breaks before entering the progress frame of the item it
just processed. -/
theorem c3_counterexample :
    (delete_unused_assets "/Game/" sC3 (fun i => i == 0)).deleted =
      ["/Game/a.a"] ∧
    (delete_unused_assets "/Game/" sC3 (fun i => i == 0)).cancelled = true ∧
    (delete_unused_assets "/Game/" sC3 (fun i => i == 0)).progress = 0 ∧
    ¬ ((delete_unused_assets "/Game/" sC3 (fun i => i == 0)).progress = 1) := by
  decide

/-! ## C1: orphan detection and referenced-entry safety -/

/-- With no failing lookups in the scope, the report loop returns exactly
the items whose referencer query is empty. -/
theorem findUnusedLoop_eq_filter (st : RepoState) :
    ∀ l : List String, (∀ b ∈ l, st.failing.contains b = false) →
    findUnusedLoop st l = .ok (l.filter (fun b => (refsOf st b).isEmpty)) := by
  intro l
  induction l with
  | nil => intro _; rfl
  | cons b rest ih =>
    intro hfail
    have hb : st.failing.contains b = false := hfail b (List.mem_cons_self b rest)
    have hfr : findReferencers st b = .ok (refsOf st b) := by
      unfold findReferencers refsOf
      rw [if_neg (by rw [hb]; exact Bool.false_ne_true)]
    have ihr := ih (fun y hy => hfail y (List.mem_cons_of_mem b hy))
    simp only [findUnusedLoop, hfr, ihr, List.filter_cons]

/-- A reference pair aimed at an entry witnesses a non-empty referencer
query for it. -/
theorem refsOf_nonempty_of_pair (st : RepoState) (r xp : String)
    (h : (r, xp) ∈ st.refs) : (refsOf st xp).isEmpty = false := by
  have hmem : r ∈ refsOf st xp := by
    unfold refsOf
    exact List.mem_map_of_mem _ (List.mem_filter.mpr ⟨h, by simp⟩)
  cases hre : (refsOf st xp).isEmpty with
  | false => rfl
  | true =>
    rw [List.isEmpty_iff] at hre
    rw [hre] at hmem
    cases hmem

/-- A reference pair not touching the rename source survives a rename. -/
theorem mem_refs_renameAsset (s : RepoState) (f pk n : String) (r xp : String)
    (h : (r, xp) ∈ s.refs) (h1 : r ≠ f) (h2 : xp ≠ f) :
    (r, xp) ∈ (renameAsset s f pk n).1.refs := by
  unfold renameAsset
  cases s.assets.find? (fun a => a.path == f) with
  | none => exact h
  | some a0 =>
    dsimp only
    split
    · exact h
    · dsimp only
      refine List.mem_map.mpr ⟨(r, xp), h, ?_⟩
      show ((if (r == f) = true then renderPath pk n else r),
        (if (xp == f) = true then renderPath pk n else xp)) = (r, xp)
      rw [if_neg (by simp [h1]), if_neg (by simp [h2])]

/-- A reference pair not touching the deleted path survives a delete. -/
theorem mem_refs_deleteAsset (s : RepoState) (dp : String) (r xp : String)
    (h : (r, xp) ∈ s.refs) (h1 : r ≠ dp) (h2 : xp ≠ dp) :
    (r, xp) ∈ (deleteAsset s dp).refs := by
  unfold deleteAsset
  exact List.mem_filter.mpr ⟨h, by simp [h1, h2]⟩

/-- The delete batch preserves every entry that a surviving out-of-batch
referencer points at, together with its reference pair. -/
theorem deleteLoop_preserves_referenced (cancel : Nat → Bool) :
    ∀ (l : List String) (st : RepoState) (i : Nat) (r xp : String) (x : Asset),
    (r, xp) ∈ st.refs → r ∉ l → x ∈ st.assets → x.path = xp →
    (r, xp) ∈ (deleteLoop cancel st l i).state.refs ∧
    x ∈ (deleteLoop cancel st l i).state.assets := by
  intro l
  induction l with
  | nil => intro st i r xp x hpair _ hx _; exact ⟨hpair, hx⟩
  | cons b rest ih =>
    intro st i r xp x hpair hrout hx hxp
    have hrb : r ≠ b := fun h => hrout (h ▸ List.mem_cons_self b rest)
    have hrrest : r ∉ rest := fun h => hrout (List.mem_cons_of_mem b h)
    simp only [deleteLoop]
    cases hfr : findReferencers st b with
    | error e => exact ⟨hpair, hx⟩
    | ok deps =>
      dsimp only
      have hcb : st.failing.contains b = false := by
        cases hcb : st.failing.contains b with
        | false => rfl
        | true =>
          unfold findReferencers at hfr
          rw [if_pos hcb] at hfr
          cases hfr
      have hdeps : deps = refsOf st b := by
        unfold findReferencers at hfr
        rw [if_neg (show ¬ st.failing.contains b = true by
          rw [hcb]; exact Bool.false_ne_true)] at hfr
        injection hfr with h2
        exact h2.symm
      by_cases hbxp : b = xp
      · have hemp : deps.isEmpty = false := by
          rw [hdeps, hbxp]
          exact refsOf_nonempty_of_pair st r xp hpair
        have hne : (if deps.isEmpty = true then deleteAsset st b else st) = st := by
          rw [hemp]
          rfl
        rw [hne]
        by_cases hc : cancel i = true
        · rw [if_pos hc]
          exact ⟨hpair, hx⟩
        · rw [if_neg hc]
          exact ih st (i + 1) r xp x hpair hrrest hx hxp
      · have hxb : x.path ≠ b := by
          rw [hxp]
          exact fun h => hbxp h.symm
        have hpair' : (r, xp) ∈
            (if deps.isEmpty = true then deleteAsset st b else st).refs := by
          split
          · exact mem_refs_deleteAsset st b r xp hpair hrb (fun h => hbxp h.symm)
          · exact hpair
        have hx' : x ∈ (if deps.isEmpty = true then deleteAsset st b else st).assets :=
          mem_if_deleteAsset st b x hx hxb _
        by_cases hc : cancel i = true
        · rw [if_pos hc]
          exact ⟨hpair', hx'⟩
        · rw [if_neg hc]
          exact ih _ (i + 1) r xp x hpair' hrrest hx' hxp

/-- The archive batch preserves, unrenamed, every entry that a surviving
out-of-batch referencer points at, together with its reference pair. -/
theorem archiveLoop_preserves_referenced (ar : String) (cancel : Nat → Bool) :
    ∀ (l : List String) (st : RepoState) (i : Nat) (r xp : String) (x : Asset),
    (r, xp) ∈ st.refs → r ∉ l → r ≠ "" → xp ≠ "" → x ∈ st.assets → x.path = xp →
    (r, xp) ∈ (archiveLoop ar cancel st l i).state.refs ∧
    x ∈ (archiveLoop ar cancel st l i).state.assets := by
  intro l
  induction l with
  | nil => intro st i r xp x hpair _ _ _ hx _; exact ⟨hpair, hx⟩
  | cons b rest ih =>
    intro st i r xp x hpair hrout hrne hxpne hx hxp
    have hrb : r ≠ b := fun h => hrout (h ▸ List.mem_cons_self b rest)
    have hrrest : r ∉ rest := fun h => hrout (List.mem_cons_of_mem b h)
    simp only [archiveLoop]
    cases hfr : findReferencers st b with
    | error e => exact ⟨hpair, hx⟩
    | ok deps =>
      dsimp only
      have hcb : st.failing.contains b = false := by
        cases hcb : st.failing.contains b with
        | false => rfl
        | true =>
          unfold findReferencers at hfr
          rw [if_pos hcb] at hfr
          cases hfr
      have hdeps : deps = refsOf st b := by
        unfold findReferencers at hfr
        rw [if_neg (show ¬ st.failing.contains b = true by
          rw [hcb]; exact Bool.false_ne_true)] at hfr
        injection hfr with h2
        exact h2.symm
      by_cases hbxp : b = xp
      · have hemp : deps.isEmpty = false := by
          rw [hdeps, hbxp]
          exact refsOf_nonempty_of_pair st r xp hpair
        rw [if_neg (show ¬ deps.isEmpty = true by
          rw [hemp]; exact Bool.false_ne_true)]
        by_cases hc : cancel i = true
        · rw [if_pos hc]
          exact ⟨hpair, hx⟩
        · rw [if_neg hc]
          exact ih st (i + 1) r xp x hpair hrrest hrne hxpne hx hxp
      · have hxb : x.path ≠ b := by
          rw [hxp]
          exact fun h => hbxp h.symm
        have hrfrom : r ≠ adPath st b := by
          cases adPath_eq_or_empty st b with
          | inl h => rw [h]; exact hrb
          | inr h => rw [h]; exact hrne
        have hxpfrom : xp ≠ adPath st b := by
          cases adPath_eq_or_empty st b with
          | inl h => rw [h]; exact fun h2 => hbxp h2.symm
          | inr h => rw [h]; exact hxpne
        have hxfrom : x.path ≠ adPath st b := by
          rw [hxp]; exact hxpfrom
        by_cases hre : deps.isEmpty = true
        · rw [if_pos hre]
          have hpair' : (r, xp) ∈
              (renameAsset st (adPath st b) ar (adName st b)).1.refs :=
            mem_refs_renameAsset st _ ar _ r xp hpair hrfrom hxpfrom
          have hx' : x ∈ (renameAsset st (adPath st b) ar (adName st b)).1.assets :=
            mem_renameAsset_of_ne st _ ar _ x hx hxfrom
          by_cases hc : cancel i = true
          · rw [if_pos hc]
            exact ⟨hpair', hx'⟩
          · rw [if_neg hc]
            exact ih _ (i + 1) r xp x hpair' hrrest hrne hxpne hx' hxp
        · rw [if_neg hre]
          by_cases hc : cancel i = true
          · rw [if_pos hc]
            exact ⟨hpair, hx⟩
          · rw [if_neg hc]
            exact ih st (i + 1) r xp x hpair hrrest hrne hxpne hx hxp

/-- C1: with every referencer lookup in the scope succeeding, the report
operation returns exactly the scope entries whose referencer query is empty
(an entry is in the orphan set iff its referencer set is empty), and an
entry pointed at by a referencer from outside the scanned scope is in
particular not in the orphan set and is never deleted by the delete batch
nor renamed (or otherwise touched) by the archive batch, for every
cancellation signal. -/
theorem c1_orphan_iff_no_referencers (wp ar : String) (s : RepoState)
    (cancel : Nat → Bool) (r xp : String) (x : Asset)
    (hfail : ∀ b ∈ listAssets wp s, b ∉ s.failing)
    (hpair : (r, xp) ∈ s.refs) (hrout : r ∉ listAssets wp s)
    (hrne : r ≠ "") (hxpne : xp ≠ "")
    (hx : x ∈ s.assets) (hxp : x.path = xp) :
    find_unused_assets wp s =
      .ok ((listAssets wp s).filter (fun b => (refsOf s b).isEmpty)) ∧
    xp ∉ (listAssets wp s).filter (fun b => (refsOf s b).isEmpty) ∧
    x ∈ (delete_unused_assets wp s cancel).state.assets ∧
    x ∈ (archive_unused_assets wp ar s cancel).state.assets := by
  have hfail' : ∀ b ∈ listAssets wp s, s.failing.contains b = false := by
    intro b hb
    simpa using hfail b hb
  refine ⟨findUnusedLoop_eq_filter s (listAssets wp s) hfail', ?_, ?_, ?_⟩
  · intro hmem
    have h2 := (List.mem_filter.mp hmem).2
    rw [refsOf_nonempty_of_pair s r xp hpair] at h2
    cases h2
  · exact (deleteLoop_preserves_referenced cancel (listAssets wp s) s 0 r xp x
      hpair hrout hx hxp).2
  · exact (archiveLoop_preserves_referenced ar cancel (listAssets wp s) s 0 r xp x
      hpair hrout hrne hxpne hx hxp).2

/-- C1 witness: on a repository with one orphan and one entry referenced
from outside the scope, the report returns exactly the orphan and the
referenced entry survives both batches. -/
theorem c1_orphan_iff_no_referencers_witness :
    find_unused_assets "/Game/" sC1 =
      .ok ((listAssets "/Game/" sC1).filter (fun b => (refsOf sC1 b).isEmpty)) ∧
    "/Game/x.x" ∉ (listAssets "/Game/" sC1).filter
      (fun b => (refsOf sC1 b).isEmpty) ∧
    mkAsset 1 "/Game" "x" "StaticMesh" ∈
      (delete_unused_assets "/Game/" sC1 noCancel).state.assets ∧
    mkAsset 1 "/Game" "x" "StaticMesh" ∈
      (archive_unused_assets "/Game/" "/Game/_ARCHIVE" sC1 noCancel).state.assets :=
  c1_orphan_iff_no_referencers "/Game/" "/Game/_ARCHIVE" sC1 noCancel
    "/Eng/r.r" "/Game/x.x" (mkAsset 1 "/Game" "x" "StaticMesh")
    (by decide) (by decide) (by decide) (by decide) (by decide)
    (by decide) (by decide)

/-- C1 counterexample: the entry `x` has the referencer `y` at scan time,
so the report excludes it from the orphan set — yet the delete batch, which
re-queries referencers live per item, first deletes the orphan `y` (removing
the `y -> x` reference pair with it) and then finds `x` referencer-free and
deletes it too: an entry that had a referencer is deleted by the
orphan-handling operation, refuting the unrestricted claim. -/
theorem c1_cascade_counterexample :
    refsOf sC1c "/Game/x.x" = ["/Game/y.y"] ∧
    "/Game/y.y" ∈ listAssets "/Game/" sC1c ∧
    find_unused_assets "/Game/" sC1c = .ok ["/Game/y.y"] ∧
    (delete_unused_assets "/Game/" sC1c noCancel).deleted =
      ["/Game/y.y", "/Game/x.x"] ∧
    ¬ (mkAsset 1 "/Game" "x" "StaticMesh" ∈
      (delete_unused_assets "/Game/" sC1c noCancel).state.assets) :=
  ⟨by decide, by decide, rfl, by decide, by decide⟩

/-! ## C10: assignment phase runs after a cancelled scan -/

/-- Setting slot 0 to the same material preserves the already-assigned
property for any object. -/
theorem setMat0_preserves (st : RepoState) (o : Option Nat) (mat : Nat)
    (om : Option Nat)
    (h : ∀ a ∈ st.assets, some a.uid = om → a.mat0 = some mat) :
    ∀ a ∈ (setMat0 st o mat).assets, some a.uid = om → a.mat0 = some mat := by
  cases o with
  | none => exact h
  | some u =>
    intro a ha heq
    simp only [setMat0] at ha
    obtain ⟨y, hy, hya⟩ := List.mem_map.mp ha
    by_cases hyu : (y.uid == u) = true
    · rw [if_pos hyu] at hya
      rw [← hya]
    · rw [if_neg hyu] at hya
      rw [← hya]
      exact h y hy (hya ▸ heq)

/-- Setting slot 0 establishes the assigned property for that object. -/
theorem setMat0_assigns (st : RepoState) (m : Option Nat) (mat : Nat) :
    ∀ a ∈ (setMat0 st m mat).assets, some a.uid = m → a.mat0 = some mat := by
  cases m with
  | none =>
    intro a _ heq
    cases heq
  | some u =>
    intro a ha heq
    simp only [setMat0] at ha
    obtain ⟨y, hy, hya⟩ := List.mem_map.mp ha
    by_cases hyu : (y.uid == u) = true
    · rw [if_pos hyu] at hya
      rw [← hya]
    · rw [if_neg hyu] at hya
      exfalso
      apply hyu
      have h2 : a.uid = u := by
        injection heq
      rw [← hya] at h2
      simp [h2]

/-- The assignment loop preserves the assigned property. -/
theorem assignAll_preserves (mat : Nat) (om : Option Nat) :
    ∀ (ms : List (Option Nat)) (st : RepoState),
    (∀ a ∈ st.assets, some a.uid = om → a.mat0 = some mat) →
    ∀ a ∈ (assignAll mat st ms).assets, some a.uid = om → a.mat0 = some mat := by
  intro ms
  induction ms with
  | nil => intro st h; exact h
  | cons m rest ih =>
    intro st h
    exact ih (setMat0 st m mat) (setMat0_preserves st m mat om h)

/-- After the assignment loop, every collected object holds the material. -/
theorem assignAll_assigns (mat : Nat) :
    ∀ (ms : List (Option Nat)) (st : RepoState) (om : Option Nat), om ∈ ms →
    ∀ a ∈ (assignAll mat st ms).assets, some a.uid = om → a.mat0 = some mat := by
  intro ms
  induction ms with
  | nil => intro st om hom; cases hom
  | cons m rest ih =>
    intro st om hom
    cases List.mem_cons.mp hom with
    | inl h =>
      subst h
      exact assignAll_preserves mat om rest (setMat0 st om mat)
        (setMat0_assigns st om mat)
    | inr h => exact ih (setMat0 st m mat) om h

/-- C10: once the selection precondition holds (a mesh and a material
selected), the material-assignment operation reports success, the selected
mesh is always in the collected set, and after the batch every collected
mesh — the selected one and every match gathered before the scan stopped —
carries the selected material in slot 0, for every cancellation signal:
cancelling the scan never prevents the assignment phase that follows it. -/
theorem c10_assignment_survives_cancel (wp : String) (s : RepoState)
    (cancel : Nat → Bool) (m mat : Nat) (restSel : List Nat) :
    (assign_material_to_similar_named_meshes (m :: mat :: restSel) wp s
      cancel).outcome = MainOutcome.ok ∧
    some m ∈ (assign_material_to_similar_named_meshes (m :: mat :: restSel) wp s
      cancel).matching ∧
    (∀ om ∈ (assign_material_to_similar_named_meshes (m :: mat :: restSel) wp s
        cancel).matching,
      ∀ a ∈ (assign_material_to_similar_named_meshes (m :: mat :: restSel) wp s
        cancel).state.assets,
      some a.uid = om → a.mat0 = some mat) := by
  refine ⟨rfl, List.mem_cons_self _ _, ?_⟩
  intro om hom a ha heq
  exact assignAll_assigns mat _ s om hom a ha heq

/-- C10 witness: on the four-asset repository with the scan cancelled at its
third sample, the unreached mesh is not collected, yet the selected mesh and
the one collected match have the material assigned. -/
theorem c10_assignment_survives_cancel_witness :
    (assign_material_to_similar_named_meshes [0, 5] "/Game/" sC10
      (fun i => i == 2)).outcome = MainOutcome.ok ∧
    some 0 ∈ (assign_material_to_similar_named_meshes [0, 5] "/Game/" sC10
      (fun i => i == 2)).matching ∧
    ({ mkAsset 1 "/Game/B" "m" "StaticMesh" with mat0 := some 5 } : Asset).mat0 =
      some 5 := by
  have h := c10_assignment_survives_cancel "/Game/" sC10 (fun i => i == 2) 0 5 []
  exact ⟨h.1, h.2.1, h.2.2 (some 1) (by decide)
    ({ mkAsset 1 "/Game/B" "m" "StaticMesh" with mat0 := some 5 }) (by decide)
    (by decide)⟩

/-! ## C5: idempotence of the naming-rule pass -/

/-- Python's `startswith` holds for any string extended on the right. -/
theorem strStartsWith_append (p q : String) : strStartsWith (p ++ q) p = true := by
  simp [strStartsWith, String.data_append, List.isPrefixOf_iff_prefix]

/-- Gaining the rule's short string makes a name longer, hence different. -/
theorem pfx_name_ne (p n : String) : ¬ (p ++ "_" ++ n = n) := by
  intro h
  have h2 := congrArg String.length h
  rw [String.length_append, String.length_append] at h2
  have h3 : "_".length = 1 := rfl
  omega

/-- A renamed record is compliant: its rule has not changed and its new name
starts with it. -/
theorem needsPfx_pfxRename (x : Asset) :
    needsPfx (pfxRename x) = false := by
  unfold needsPfx pfxRename at *
  dsimp only
  have hassoc : properPfx x.klass ++ "_" ++ x.name =
      properPfx x.klass ++ ("_" ++ x.name) := by
    rw [String.append_assoc]
  rw [hassoc, strStartsWith_append]
  simp

/-- A rename preserves distinctness of the live paths. -/
theorem renameAsset_paths_nodup (s : RepoState) (f pk n : String)
    (hnd : (s.assets.map (fun a => a.path)).Nodup) :
    (((renameAsset s f pk n).1.assets).map (fun a => a.path)).Nodup := by
  unfold renameAsset
  cases hf : s.assets.find? (fun a => a.path == f) with
  | none => exact hnd
  | some a0 =>
    dsimp only
    split
    · exact hnd
    · rename_i hcol
      dsimp only
      have hmapmap : (List.map (fun a => a.path) (s.assets.map (fun a =>
          if (a.path == f) = true then
            { a with path := renderPath pk n, name := n, pkg := pk }
          else a))) =
          (s.assets.map (fun a => a.path)).map (fun p =>
            if (p == f) = true then renderPath pk n else p) := by
        rw [List.map_map, List.map_map]
        apply List.map_congr_left
        intro a _
        by_cases hp : (a.path == f) = true
        · simp only [Function.comp_apply, if_pos hp]
        · simp only [Function.comp_apply, if_neg hp]
      rw [hmapmap]
      refine List.Nodup.map_on ?_ hnd
      intro p1 hp1 p2 hp2 heq
      by_cases h1 : (p1 == f) = true
      · by_cases h2 : (p2 == f) = true
        · have e1 : p1 = f := by simpa using h1
          have e2 : p2 = f := by simpa using h2
          rw [e1, e2]
        · rw [if_pos h1, if_neg h2] at heq
          exfalso
          obtain ⟨y, hy, hyp⟩ := List.mem_map.mp hp2
          apply hcol
          refine List.any_eq_true.mpr ⟨y, hy, ?_⟩
          simp [hyp, heq, h2]
      · by_cases h2 : (p2 == f) = true
        · rw [if_neg h1, if_pos h2] at heq
          exfalso
          obtain ⟨y, hy, hyp⟩ := List.mem_map.mp hp1
          apply hcol
          refine List.any_eq_true.mpr ⟨y, hy, ?_⟩
          simp [hyp, ← heq, h1]
        · rw [if_neg h1, if_neg h2] at heq
          exact heq

/-- What a successful rename did: the assets were mapped, and no distinct
asset occupied the target. -/
theorem renameAsset_success (s : RepoState) (f pk n : String)
    (h : (renameAsset s f pk n).2 = true) :
    (renameAsset s f pk n).1.assets = s.assets.map (fun a =>
      if (a.path == f) = true then
        { a with path := renderPath pk n, name := n, pkg := pk }
      else a) ∧
    ¬ (s.assets.any (fun a => a.path == renderPath pk n && !(a.path == f))) = true := by
  unfold renameAsset at *
  cases hf : s.assets.find? (fun a => a.path == f) with
  | none =>
    rw [hf] at h
    cases h
  | some a0 =>
    rw [hf] at h
    dsimp only at h
    dsimp only
    split at h
    · cases h
    · rename_i hcol
      rw [if_neg hcol]
      exact ⟨rfl, hcol⟩

/-- Two assets of a distinct-path repository sharing a path coincide. -/
theorem eq_of_path_eq_of_nodup (l : List Asset)
    (hnd : (l.map (fun a => a.path)).Nodup) (x y : Asset)
    (hx : x ∈ l) (hy : y ∈ l) (hpp : x.path = y.path) : x = y := by
  have h1 := find?_path_eq_some l x x.path hnd hx rfl
  have h2 := find?_path_eq_some l y x.path hnd hy hpp.symm
  rw [h1] at h2
  injection h2

/-- The naming-rule pass keeps the live paths distinct. -/
theorem pfxLoop_nodup (cancel : Nat → Bool) :
    ∀ (l : List String) (st : RepoState) (i : Nat),
    (st.assets.map (fun a => a.path)).Nodup →
    (((pfxLoop cancel st l i).state.assets).map (fun a => a.path)).Nodup := by
  intro l
  induction l with
  | nil => intro st i hnd; exact hnd
  | cons b rest ih =>
    intro st i hnd
    simp only [pfxLoop]
    by_cases hp : (properPfx (adClass st b) != "" &&
        !(strStartsWith (adName st b) (properPfx (adClass st b)))) = true
    · rw [if_pos hp]
      by_cases hc : cancel i = true
      · rw [if_pos hc]
        exact renameAsset_paths_nodup st _ _ _ hnd
      · rw [if_neg hc]
        exact ih _ (i + 1) (renameAsset_paths_nodup st _ _ _ hnd)
    · rw [if_neg hp]
      by_cases hc : cancel i = true
      · rw [if_pos hc]
        exact hnd
      · rw [if_neg hc]
        exact ih st (i + 1) hnd

/-- One naming-rule pass, when every attempted rename succeeds, transforms
each asset independently: assets listed in the pass with a rule and a
non-compliant name are renamed, all others are untouched. -/
theorem pfxLoop_state :
    ∀ (l : List String) (st : RepoState) (i : Nat),
    (st.assets.map (fun a => a.path)).Nodup →
    l.Nodup →
    (∀ b ∈ l, ∃ a, a ∈ st.assets ∧ a.path = b) →
    (pfxLoop noCancel st l i).failed = [] →
    (pfxLoop noCancel st l i).state.assets = st.assets.map (pfxStep l) := by
  intro l
  induction l with
  | nil =>
    intro st i _ _ _ _
    show st.assets = st.assets.map (pfxStep [])
    symm
    calc st.assets.map (pfxStep [])
        = st.assets.map id := List.map_congr_left (fun x _ => by simp [pfxStep])
      _ = st.assets := List.map_id _
  | cons b rest ih =>
    intro st i hnd hlnd hlive hok
    obtain ⟨x0, hx0, hx0p⟩ := hlive b (List.mem_cons_self b rest)
    have hfind : findAssetData st b = some x0 :=
      find?_path_eq_some st.assets x0 b hnd hx0 hx0p
    have hname : adName st b = x0.name := by simp [adName, hfind]
    have hklass : adClass st b = x0.klass := by simp [adClass, hfind]
    have hpkg : adPkg st b = x0.pkg := by simp [adPkg, hfind]
    have hpath : adPath st b = b := by
      simp only [adPath, hfind]
      exact hx0p
    have hbrest : b ∉ rest := (List.nodup_cons.mp hlnd).1
    have hrestnd : rest.Nodup := (List.nodup_cons.mp hlnd).2
    have hcond : (properPfx (adClass st b) != "" &&
        !(strStartsWith (adName st b) (properPfx (adClass st b)))) = needsPfx x0 := by
      rw [hname, hklass, needsPfx]
    simp only [pfxLoop, hcond] at hok ⊢
    by_cases hnx : needsPfx x0 = true
    · rw [if_pos hnx, if_neg (show ¬ noCancel i = true from Bool.false_ne_true)]
        at hok ⊢
      rw [hpath, hpkg, hklass, hname] at hok ⊢
      dsimp only at hok ⊢
      have hfl := List.append_eq_nil.mp hok
      have hsucc : (renameAsset st b x0.pkg
          (properPfx x0.klass ++ "_" ++ x0.name)).2 = true := by
        cases hs : (renameAsset st b x0.pkg
            (properPfx x0.klass ++ "_" ++ x0.name)).2 with
        | true => rfl
        | false =>
          have h1 := hfl.1
          rw [hs] at h1
          cases h1
      have hsc := renameAsset_success st b x0.pkg
        (properPfx x0.klass ++ "_" ++ x0.name) hsucc
      have hlive' : ∀ b' ∈ rest, ∃ a, a ∈ (renameAsset st b x0.pkg
          (properPfx x0.klass ++ "_" ++ x0.name)).1.assets ∧ a.path = b' := by
        intro b' hb'
        obtain ⟨a', ha', hap⟩ := hlive b' (List.mem_cons_of_mem b hb')
        have hne : a'.path ≠ b := by
          rw [hap]
          exact fun h => hbrest (h ▸ hb')
        exact ⟨a', mem_renameAsset_of_ne st b x0.pkg _ a' ha' hne, hap⟩
      have ihres := ih (renameAsset st b x0.pkg
          (properPfx x0.klass ++ "_" ++ x0.name)).1 (i + 1)
        (renameAsset_paths_nodup st b x0.pkg _ hnd) hrestnd hlive' hfl.2
      rw [ihres, hsc.1, List.map_map]
      apply List.map_congr_left
      intro a ha
      simp only [Function.comp_apply]
      by_cases hab : (a.path == b) = true
      · have haeq : a = x0 := eq_of_path_eq_of_nodup st.assets hnd a x0 ha hx0
          (by rw [hx0p]; simpa using hab)
        subst haeq
        rw [if_pos hab]
        have hrn : ({ a with
            path := renderPath a.pkg (properPfx a.klass ++ "_" ++ a.name),
            name := properPfx a.klass ++ "_" ++ a.name,
            pkg := a.pkg } : Asset) = pfxRename a := rfl
        rw [hrn]
        have hcontains : rest.contains (pfxRename a).path = false := by
          by_cases htb : (pfxRename a).path = b
          · rw [htb]
            simpa using hbrest
          · cases hcr : rest.contains (pfxRename a).path with
            | false => rfl
            | true =>
              exfalso
              have hmem : (pfxRename a).path ∈ rest := by simpa using hcr
              obtain ⟨y0, hy0, hy0p⟩ := hlive (pfxRename a).path
                (List.mem_cons_of_mem b hmem)
              apply hsc.2
              refine List.any_eq_true.mpr ⟨y0, hy0, ?_⟩
              have hy0b : ¬ (y0.path = b) := by
                rw [hy0p]
                exact htb
              have htb2 : ¬ renderPath a.pkg (properPfx a.klass ++ "_" ++ a.name) = b :=
                htb
              simp [hy0p, pfxRename, hy0b, htb2]
        have hlhs : pfxStep rest (pfxRename a) = pfxRename a := by
          unfold pfxStep
          rw [hcontains]
          rfl
        have hrhs : pfxStep (b :: rest) a = pfxRename a := by
          unfold pfxStep
          have hc2 : (b :: rest).contains a.path = true := by
            simp only [List.contains_cons]
            rw [hab]
            rfl
          rw [hc2, hnx]
          rfl
        rw [hlhs, hrhs]
      · rw [if_neg hab]
        unfold pfxStep
        have hab' : (a.path == b) = false := by
          cases h : (a.path == b) with
          | false => rfl
          | true => exact absurd h hab
        have hc2 : (b :: rest).contains a.path = rest.contains a.path := by
          simp only [List.contains_cons]
          rw [hab']
          rfl
        rw [hc2]
    · rw [if_neg hnx, if_neg (show ¬ noCancel i = true from Bool.false_ne_true)]
        at hok ⊢
      dsimp only at hok ⊢
      have hnx' : needsPfx x0 = false := by
        cases h : needsPfx x0 with
        | false => rfl
        | true => exact absurd h hnx
      have ihres := ih st (i + 1) hnd hrestnd
        (fun b' hb' => hlive b' (List.mem_cons_of_mem b hb')) hok
      rw [ihres]
      apply List.map_congr_left
      intro a ha
      by_cases hab : (a.path == b) = true
      · have haeq : a = x0 := eq_of_path_eq_of_nodup st.assets hnd a x0 ha hx0
          (by rw [hx0p]; simpa using hab)
        subst haeq
        unfold pfxStep
        have h2 : a.path = b := by simpa using hab
        have hcrest : rest.contains a.path = false := by
          rw [h2]
          simpa using hbrest
        rw [hcrest]
        have hc2 : ((b :: rest).contains a.path && needsPfx a) = false := by
          rw [hnx']
          simp
        rw [hc2]
        rfl
      · unfold pfxStep
        have hab' : (a.path == b) = false := by
          cases h : (a.path == b) with
          | false => rfl
          | true => exact absurd h hab
        have hc2 : (b :: rest).contains a.path = rest.contains a.path := by
          simp only [List.contains_cons]
          rw [hab']
          rfl
        rw [hc2]

/-- The scope listing has no duplicate paths when the repository has none. -/
theorem listAssets_nodup (wp : String) (s : RepoState)
    (hnd : (s.assets.map (fun a => a.path)).Nodup) : (listAssets wp s).Nodup := by
  unfold listAssets
  exact List.Nodup.sublist (List.Sublist.map _ (List.filter_sublist _)) hnd

/-- Every listed item is the path of a live in-scope asset. -/
theorem listAssets_live (wp : String) (s : RepoState) (b : String)
    (hb : b ∈ listAssets wp s) :
    ∃ a, a ∈ s.assets ∧ a.path = b ∧ strStartsWith (a.pkg ++ "/") wp = true := by
  unfold listAssets at hb
  obtain ⟨a, ha, hab⟩ := List.mem_map.mp hb
  exact ⟨a, (List.mem_filter.mp ha).1, hab, (List.mem_filter.mp ha).2⟩

/-- Every live in-scope asset's path is listed. -/
theorem listAssets_mem (wp : String) (s : RepoState) (a : Asset)
    (ha : a ∈ s.assets) (hpred : strStartsWith (a.pkg ++ "/") wp = true) :
    a.path ∈ listAssets wp s := by
  unfold listAssets
  exact List.mem_map_of_mem _ (List.mem_filter.mpr ⟨ha, hpred⟩)

/-- With every listed item already compliant (or ruleless), the naming-rule
pass plans nothing. -/
theorem pfxLoop_noop :
    ∀ (l : List String) (st : RepoState) (i : Nat),
    (∀ b ∈ l, (properPfx (adClass st b) != "" &&
      !(strStartsWith (adName st b) (properPfx (adClass st b)))) = false) →
    (pfxLoop noCancel st l i).planned = [] := by
  intro l
  induction l with
  | nil => intro st i _; rfl
  | cons b rest ih =>
    intro st i hskip
    have hb := hskip b (List.mem_cons_self b rest)
    simp only [pfxLoop]
    rw [hb]
    rw [if_neg (show ¬ false = true from Bool.false_ne_true),
      if_neg (show ¬ noCancel i = true from Bool.false_ne_true)]
    exact ih st (i + 1) (fun y hy => hskip y (List.mem_cons_of_mem b hy))

/-- C5 (amended): provided every rename attempted by the first naming-rule
pass succeeded (no target-path collision), a second pass over the state the
first produced plans no renames — after a collision-free pass, every
in-scope entry with a known non-empty rule has a compliant name and
ruleless or compliant entries were left untouched. -/
theorem c5_second_pass_plans_nothing (wp : String) (s : RepoState)
    (hnd : (s.assets.map (fun a => a.path)).Nodup)
    (hok : (pfx_all_assets wp s noCancel).failed = []) :
    (pfx_all_assets wp (pfx_all_assets wp s noCancel).state noCancel).planned =
      [] := by
  have hL1nd := listAssets_nodup wp s hnd
  have hlive1 : ∀ b ∈ listAssets wp s, ∃ a, a ∈ s.assets ∧ a.path = b := by
    intro b hb
    obtain ⟨a, ha, hab, _⟩ := listAssets_live wp s b hb
    exact ⟨a, ha, hab⟩
  have hstate := pfxLoop_state (listAssets wp s) s 0 hnd hL1nd hlive1 hok
  have htnd : (((pfx_all_assets wp s noCancel).state.assets).map
      (fun a => a.path)).Nodup := pfxLoop_nodup noCancel (listAssets wp s) s 0 hnd
  apply pfxLoop_noop
  intro b hb
  obtain ⟨y, hy, hyp, hypred⟩ :=
    listAssets_live wp (pfx_all_assets wp s noCancel).state b hb
  have hfind : findAssetData (pfx_all_assets wp s noCancel).state b = some y :=
    find?_path_eq_some _ y b htnd hy hyp
  have hname : adName (pfx_all_assets wp s noCancel).state b = y.name := by
    simp [adName, hfind]
  have hklass : adClass (pfx_all_assets wp s noCancel).state b = y.klass := by
    simp [adClass, hfind]
  rw [hname, hklass]
  show needsPfx y = false
  have hy' : y ∈ s.assets.map (pfxStep (listAssets wp s)) := by
    rw [← hstate]
    exact hy
  obtain ⟨x, hx, hxy⟩ := List.mem_map.mp hy'
  by_cases hcx : ((listAssets wp s).contains x.path && needsPfx x) = true
  · have hyr : y = pfxRename x := by
      rw [← hxy]
      unfold pfxStep
      rw [if_pos hcx]
    rw [hyr]
    exact needsPfx_pfxRename x
  · have hyx : y = x := by
      rw [← hxy]
      unfold pfxStep
      rw [if_neg hcx]
    by_cases hnpx : needsPfx x = true
    · exfalso
      have hcontains : (listAssets wp s).contains x.path = false := by
        cases hc : (listAssets wp s).contains x.path with
        | false => rfl
        | true =>
          exfalso
          exact hcx (by rw [hc, hnpx]; rfl)
      have hxpred : strStartsWith (x.pkg ++ "/") wp = true := by
        rw [← hyx]
        exact hypred
      have hxmem : x.path ∈ listAssets wp s := listAssets_mem wp s x hx hxpred
      rw [(by simpa using hxmem : (listAssets wp s).contains x.path = true)]
        at hcontains
      cases hcontains
    · rw [hyx]
      cases h : needsPfx x with
      | false => rfl
      | true => exact absurd h hnpx

/-- C5 witness: on a one-texture repository whose rename target is free, the
first pass has no failures and the second pass plans nothing. -/
theorem c5_second_pass_plans_nothing_witness :
    (pfx_all_assets "/Game/" (pfx_all_assets "/Game/" sC5w noCancel).state
      noCancel).planned = [] :=
  c5_second_pass_plans_nothing "/Game/" sC5w (by decide) (by decide)

/-- C5 counterexample: `rock` (a `Texture2D`) shares its computed target
with the already-compliant `tex_rock`, so the first pass's rename fails at
the repository and is silently dropped; the second pass plans the very same
rename again — the operation is not idempotent when a collision occurs. -/
theorem c5_counterexample :
    (pfx_all_assets "/Game/" sC5 noCancel).failed =
      [("/Game/rock.rock", "/Game/tex_rock.tex_rock")] ∧
    (pfx_all_assets "/Game/" (pfx_all_assets "/Game/" sC5 noCancel).state
      noCancel).planned = [("/Game/rock.rock", "/Game/tex_rock.tex_rock")] ∧
    ¬ ((pfx_all_assets "/Game/" (pfx_all_assets "/Game/" sC5 noCancel).state
      noCancel).planned = []) := by
  decide

/-! ## C4: live re-derivation versus the snapshot plan -/

/-- A listed item with a live asset resolves to its own object path. -/
theorem adPath_of_live (s : RepoState) (b : String)
    (h : ∃ x, x ∈ s.assets ∧ x.path = b) : adPath s b = b := by
  obtain ⟨x, hx, hxp⟩ := h
  have hfs : (s.assets.find? (fun a => a.path == b)).isSome := by
    rw [List.find?_isSome]
    exact ⟨x, hx, by simp [hxp]⟩
  obtain ⟨y, hy⟩ := Option.isSome_iff_exists.mp hfs
  have hyp : y.path = b := by
    have h2 := List.find?_some hy
    simpa using h2
  unfold adPath findAssetData
  rw [hy]
  exact hyp

/-- A listed item with a live asset resolves to a live object. -/
theorem adObj_of_live (s : RepoState) (b : String)
    (h : ∃ x, x ∈ s.assets ∧ x.path = b) : (adObj s b).isSome = true := by
  obtain ⟨x, hx, hxp⟩ := h
  have hfs : (s.assets.find? (fun a => a.path == b)).isSome := by
    rw [List.find?_isSome]
    exact ⟨x, hx, by simp [hxp]⟩
  obtain ⟨y, hy⟩ := Option.isSome_iff_exists.mp hfs
  unfold adObj findAssetData
  rw [hy]
  rfl

/-- Until its first consolidation the all-assets unification batch works on
the unmutated scan state, so its first attempted consolidation coincides
with the first op of the snapshot plan.  `pre` is the already-scanned part
of the captured list (each of its items had an empty match set) and `seen`
the display names the snapshot planner has already grouped. -/
theorem unifyLoop_head (s0 : RepoState) (L : List String) (hnd : L.Nodup)
    (hlive : ∀ b ∈ L, ∃ x, x ∈ s0.assets ∧ x.path = b) :
    ∀ (suffix pre seen : List String) (i : Nat),
    L = pre ++ suffix →
    (∀ p ∈ pre, L.filter
      (fun c => adName s0 c == adName s0 p && !(c == adPath s0 p)) = []) →
    (∀ nm, seen.contains nm = true → ∃ p, p ∈ pre ∧ adName s0 p = nm) →
    ((unifyAllLoop L noCancel s0 suffix i).attempted).head? =
      (specPlanLoop s0 suffix seen).head? := by
  intro suffix
  induction suffix with
  | nil => intro pre seen i _ _ _; rfl
  | cons a rest ih =>
    intro pre seen i hsplit hpre hseen
    have haL : a ∈ L := by
      rw [hsplit]
      exact List.mem_append.mpr (Or.inr (List.mem_cons_self a rest))
    have hmid : a ∉ pre ++ rest := by
      have h2 : (pre ++ a :: rest).Nodup := by
        rw [← hsplit]
        exact hnd
      exact (List.nodup_cons.mp (List.nodup_middle.mp h2)).1
    have hanotpre : a ∉ pre := fun h => hmid (List.mem_append.mpr (Or.inl h))
    have harest : a ∉ rest := fun h => hmid (List.mem_append.mpr (Or.inr h))
    have hapath : adPath s0 a = a := adPath_of_live s0 a (hlive a haL)
    by_cases hm : L.filter
        (fun c => adName s0 c == adName s0 a && !(c == adPath s0 a)) = []
    · have hrunstep : ((unifyAllLoop L noCancel s0 (a :: rest) i).attempted).head? =
          ((unifyAllLoop L noCancel s0 rest (i + 1)).attempted).head? := by
        simp only [unifyAllLoop]
        rw [hm]
        rw [if_pos (show (([] : List String).map (adObj s0)).isEmpty = true from rfl),
          if_neg (show ¬ noCancel i = true from Bool.false_ne_true)]
        rfl
      rw [hrunstep]
      have hpre' : ∀ p ∈ pre ++ [a], L.filter
          (fun c => adName s0 c == adName s0 p && !(c == adPath s0 p)) = [] := by
        intro p hp
        cases List.mem_append.mp hp with
        | inl h => exact hpre p h
        | inr h =>
          have hpa : p = a := List.mem_singleton.mp h
          rw [hpa]
          exact hm
      have hsplit' : L = (pre ++ [a]) ++ rest := by
        rw [hsplit, List.append_assoc]
        rfl
      by_cases hsc : seen.contains (adName s0 a) = true
      · have hplanstep : (specPlanLoop s0 (a :: rest) seen).head? =
            (specPlanLoop s0 rest seen).head? := by
          simp only [specPlanLoop]
          rw [hsc]
          rfl
        rw [hplanstep]
        exact ih (pre ++ [a]) seen (i + 1) hsplit' hpre'
          (fun nm h => by
            obtain ⟨p, hp, hpn⟩ := hseen nm h
            exact ⟨p, List.mem_append.mpr (Or.inl hp), hpn⟩)
      · have hdups : rest.filter (fun c => adName s0 c == adName s0 a) = [] := by
          rw [List.filter_eq_nil_iff]
          intro c hc hcond
          have hcL : c ∈ L := by
            rw [hsplit]
            exact List.mem_append.mpr (Or.inr (List.mem_cons_of_mem a hc))
          have hca : ¬ (c = a) := fun h => harest (h ▸ hc)
          have hcf : c ∈ L.filter
              (fun c => adName s0 c == adName s0 a && !(c == adPath s0 a)) :=
            List.mem_filter.mpr ⟨hcL, by simp [hcond, hapath, hca]⟩
          rw [hm] at hcf
          cases hcf
        have hscF : seen.contains (adName s0 a) = false := by
          cases h : seen.contains (adName s0 a) with
          | false => rfl
          | true => exact absurd h hsc
        have hplanstep : (specPlanLoop s0 (a :: rest) seen).head? =
            (specPlanLoop s0 rest (adName s0 a :: seen)).head? := by
          simp only [specPlanLoop]
          rw [hscF, if_neg Bool.false_ne_true, hdups]
          rfl
        rw [hplanstep]
        exact ih (pre ++ [a]) (adName s0 a :: seen) (i + 1) hsplit' hpre'
          (fun nm h => by
            rw [List.contains_cons] at h
            by_cases hnm : (nm == adName s0 a) = true
            · refine ⟨a, List.mem_append.mpr (Or.inr (List.mem_singleton.mpr rfl)), ?_⟩
              have h3 : nm = adName s0 a := by simpa using hnm
              exact h3.symm
            · have hnm' : (nm == adName s0 a) = false := by
                cases h2 : (nm == adName s0 a) with
                | false => rfl
                | true => exact absurd h2 hnm
              rw [hnm'] at h
              simp only [Bool.false_or] at h
              obtain ⟨p, hp, hpn⟩ := hseen nm h
              exact ⟨p, List.mem_append.mpr (Or.inl hp), hpn⟩)
    · obtain ⟨c0, cs, hcs⟩ : ∃ c0 cs, L.filter
          (fun c => adName s0 c == adName s0 a && !(c == adPath s0 a)) = c0 :: cs := by
        cases hls : L.filter
            (fun c => adName s0 c == adName s0 a && !(c == adPath s0 a)) with
        | nil => exact absurd hls hm
        | cons c0 cs => exact ⟨c0, cs, rfl⟩
      have hprename : ∀ p ∈ pre, ¬ (adName s0 p = adName s0 a) := by
        intro p hp heq
        have hpL : p ∈ L := by
          rw [hsplit]
          exact List.mem_append.mpr (Or.inl hp)
        have hppath : adPath s0 p = p := adPath_of_live s0 p (hlive p hpL)
        have hpa : ¬ (a = p) := fun h => hanotpre (h ▸ hp)
        have haf : a ∈ L.filter
            (fun c => adName s0 c == adName s0 p && !(c == adPath s0 p)) :=
          List.mem_filter.mpr ⟨haL, by simp [heq, hppath, hpa]⟩
        rw [hpre p hp] at haf
        cases haf
      have hscF : seen.contains (adName s0 a) = false := by
        cases h : seen.contains (adName s0 a) with
        | false => rfl
        | true =>
          exfalso
          obtain ⟨p, hp, hpn⟩ := hseen _ h
          exact hprename p hp hpn
      have hprefilter : pre.filter
          (fun c => adName s0 c == adName s0 a && !(c == adPath s0 a)) = [] := by
        rw [List.filter_eq_nil_iff]
        intro p hp hcond
        have heq : adName s0 p = adName s0 a := by
          have h2 := (Bool.and_eq_true _ _ |>.mp hcond).1
          simpa using h2
        exact hprename p hp heq
      have hfe : L.filter
          (fun c => adName s0 c == adName s0 a && !(c == adPath s0 a)) =
          rest.filter (fun c => adName s0 c == adName s0 a) := by
        rw [hsplit, List.filter_append, hprefilter, List.nil_append,
          List.filter_cons]
        have hconda : (adName s0 a == adName s0 a && !(a == adPath s0 a)) = false := by
          rw [hapath]
          simp
        rw [hconda]
        simp only [Bool.false_eq_true, if_false]
        apply List.filter_congr
        intro c hc
        have hca : (c == a) = false := by
          cases h2 : (c == a) with
          | false => rfl
          | true =>
            exfalso
            exact harest ((by simpa using h2 : c = a) ▸ hc)
        rw [hapath, hca]
        cases adName s0 c == adName s0 a <;> rfl
      have hrunhead : ((unifyAllLoop L noCancel s0 (a :: rest) i).attempted).head? =
          some (adObj s0 a, (L.filter (fun c => adName s0 c == adName s0 a &&
            !(c == adPath s0 a))).map (adObj s0)) := by
        simp only [unifyAllLoop]
        rw [hcs]
        rw [if_neg (show ¬ (((c0 :: cs).map (adObj s0)).isEmpty = true) by simp)]
        cases hcons : consolidateAssets s0 (adObj s0 a) ((c0 :: cs).map (adObj s0)) with
        | error e =>
          rfl
        | ok s2 =>
          dsimp only
          rw [if_neg (show ¬ noCancel i = true from Bool.false_ne_true)]
          rfl
      have hplanhead : (specPlanLoop s0 (a :: rest) seen).head? =
          some (adObj s0 a, (rest.filter
            (fun c => adName s0 c == adName s0 a)).map (adObj s0)) := by
        simp only [specPlanLoop]
        rw [hscF, if_neg Bool.false_ne_true]
        have hdne : (rest.filter (fun c => adName s0 c == adName s0 a)).isEmpty =
            false := by
          rw [← hfe, hcs]
          rfl
        rw [if_neg (show ¬ ((rest.filter
            (fun c => adName s0 c == adName s0 a)).isEmpty = true) by
          rw [hdne]; exact Bool.false_ne_true)]
        rfl
      rw [hrunhead, hplanhead, hfe]

/-- C4 (amended): only the path list is captured as a snapshot; each item's
metadata and duplicate set are re-derived from live repository state inside
the loop.  Decisions therefore agree with the snapshot plan only until the
first mutation of the batch: the first consolidation the batch hands to the
repository is exactly the first op of the plan computed from the captured
scan snapshot, while later attempts may be derived from already-mutated
state (the counterexample exhibits a second attempt, absent from the
snapshot plan, built from an entry the batch itself had just consolidated
away, which aborts the batch). -/
theorem c4_first_op_matches_snapshot_plan (wp : String) (s : RepoState)
    (hnd : (s.assets.map (fun a => a.path)).Nodup) :
    ((unify_duplicates wp s noCancel).attempted).head? =
      (specSnapshotPlan wp s).head? := by
  have hlive : ∀ b ∈ listAssets wp s, ∃ x, x ∈ s.assets ∧ x.path = b := by
    intro b hb
    obtain ⟨x, hx, hxp, _⟩ := listAssets_live wp s b hb
    exact ⟨x, hx, hxp⟩
  exact unifyLoop_head s (listAssets wp s) (listAssets_nodup wp s hnd) hlive
    (listAssets wp s) [] [] 0 rfl
    (fun p hp => absurd hp (List.not_mem_nil p))
    (fun nm h => by cases h)

/-- C4 witness: on the two-duplicate repository the first attempted
consolidation equals the snapshot plan's first op. -/
theorem c4_first_op_matches_snapshot_plan_witness :
    ((unify_duplicates "/Game/" sC4 noCancel).attempted).head? =
      (specSnapshotPlan "/Game/" sC4).head? :=
  c4_first_op_matches_snapshot_plan "/Game/" sC4 (by decide)

/-- C4 counterexample: on two same-named entries the batch first
consolidates entry 1 into entry 0 — and then, re-deriving entry 1's
metadata from the repository state it has just mutated, attempts a second
consolidation with an invalid handle (the entry no longer exists), which
the snapshot plan does not contain: the executed/attempted ops differ from
the single-snapshot plan, so the batch does not operate on one snapshot
generation. -/
theorem c4_counterexample :
    (unify_duplicates "/Game/" sC4 noCancel).attempted =
      [(some 0, [some 1]), (none, [none])] ∧
    specSnapshotPlan "/Game/" sC4 = [(some 0, [some 1])] ∧
    ¬ ((unify_duplicates "/Game/" sC4 noCancel).attempted =
        specSnapshotPlan "/Game/" sC4) := by
  decide

/-! ## C6: canonical selection for duplicate groups -/

/-- With distinct identities, lookup by an asset's uid finds that asset. -/
theorem find?_uid_eq_some (l : List Asset) (a : Asset) (u : Nat)
    (hnd : (l.map (fun x => x.uid)).Nodup) (ha : a ∈ l) (hu : a.uid = u) :
    l.find? (fun x => x.uid == u) = some a := by
  induction l with
  | nil => cases ha
  | cons x xs ih =>
    cases List.mem_cons.mp ha with
    | inl hax =>
      subst hax
      exact List.find?_cons_of_pos _ (by simp [hu])
    | inr hax =>
      have hxb : ¬ (x.uid = u) := by
        intro hxb
        have hmm : x.uid ∈ xs.map (fun y => y.uid) := by
          rw [hxb, ← hu]
          exact List.mem_map_of_mem _ hax
        exact (List.nodup_cons.mp (by simpa using hnd)).1 hmm
      rw [List.find?_cons_of_neg _ (by simp [hxb])]
      exact ih (by simpa using (List.nodup_cons.mp (by simpa using hnd)).2) hax

/-- In a filtered view of a distinct-path repository, lookup of a kept
asset's path finds it. -/
theorem find?_filter_unique_pos (l : List Asset) (keep : Asset → Bool)
    (b : String) (x : Asset) (hnd : (l.map (fun a => a.path)).Nodup)
    (hx : x ∈ l) (hp : x.path = b) (hkeep : keep x = true) :
    (l.filter keep).find? (fun a => a.path == b) = some x := by
  refine find?_path_eq_some (l.filter keep) x b ?_ (List.mem_filter.mpr ⟨hx, hkeep⟩) hp
  exact List.Nodup.sublist (List.Sublist.map _ (List.filter_sublist _)) hnd

/-- In a filtered view of a distinct-path repository, lookup of a dropped
asset's path finds nothing. -/
theorem find?_filter_unique_neg (l : List Asset) (keep : Asset → Bool)
    (b : String) (x : Asset) (hnd : (l.map (fun a => a.path)).Nodup)
    (hx : x ∈ l) (hp : x.path = b) (hkeep : keep x = false) :
    (l.filter keep).find? (fun a => a.path == b) = none := by
  rw [List.find?_eq_none]
  intro y hy hq
  have hyl : y ∈ l := List.mem_of_mem_filter hy
  have hyp : y.path = b := by simpa using hq
  have hyx : y = x := eq_of_path_eq_of_nodup l hnd y x hyl hx (by rw [hyp, hp])
  have hk := (List.mem_filter.mp hy).2
  rw [hyx, hkeep] at hk
  cases hk

/-- The name a listed item resolves to in the scan state. -/
theorem adName_of_asset (s : RepoState) (b : String) (x : Asset)
    (hnd : (s.assets.map (fun a => a.path)).Nodup)
    (hx : x ∈ s.assets) (hp : x.path = b) : adName s b = x.name := by
  unfold adName findAssetData
  rw [find?_path_eq_some s.assets x b hnd hx hp]

/-- Two assets of a distinct-identity repository sharing a uid coincide. -/
theorem eq_of_uid_eq_of_nodup (l : List Asset)
    (hnd : (l.map (fun a => a.uid)).Nodup) (x y : Asset)
    (hx : x ∈ l) (hy : y ∈ l) (huu : x.uid = y.uid) : x = y := by
  have h1 := find?_uid_eq_some l x x.uid hnd hx rfl
  have h2 := find?_uid_eq_some l y x.uid hnd hy huu.symm
  rw [h1] at h2
  injection h2

/-- Appending one distinct element does not change a containment check. -/
theorem contains_append_singleton (pre : List String) (a h : String)
    (hne : ¬ h = a) : (pre ++ [a]).contains h = pre.contains h := by
  cases hc : pre.contains h with
  | true =>
    have hm : h ∈ pre := by simpa using hc
    have hm2 : h ∈ pre ++ [a] := List.mem_append.mpr (Or.inl hm)
    simpa using hm2
  | false =>
    have hm : h ∉ pre := by simpa using hc
    have hm2 : h ∉ pre ++ [a] := by
      intro h2
      cases List.mem_append.mp h2 with
      | inl h3 => exact hm h3
      | inr h3 => exact hne (List.mem_singleton.mp h3)
    simpa using hm2

/-- Processing one more item changes nothing for an asset whose group is not
headed by that item. -/
theorem aliveAfter_extend (s0 : RepoState) (L pre : List String) (a : String)
    (x : Asset)
    (hcase : ∀ h t1 t2, L.filter (fun b => adName s0 b == x.name) = h :: t1 :: t2 →
      ¬ h = a) :
    aliveAfter s0 L (pre ++ [a]) x = aliveAfter s0 L pre x := by
  unfold aliveAfter
  cases hg : L.filter (fun b => adName s0 b == x.name) with
  | nil => rfl
  | cons h t =>
    cases t with
    | nil => rfl
    | cons t1 t2 =>
      dsimp only
      rw [contains_append_singleton pre a h (hcase h t1 t2 hg)]

/-- Every consolidation the all-assets batch successfully hands to the
engine acts on one whole duplicate group of the scan snapshot: its
canonical entry is the group's first member in snapshot order and its
duplicates are the remaining members, in order. -/
theorem unifyLoop_ops_group (s0 : RepoState) (L : List String)
    (hnd0 : (s0.assets.map (fun a => a.path)).Nodup)
    (hndu : (s0.assets.map (fun a => a.uid)).Nodup)
    (hnames : ∀ x ∈ s0.assets, ¬ x.name = "")
    (hndL : L.Nodup)
    (hliveL : ∀ b ∈ L, ∃ x, x ∈ s0.assets ∧ x.path = b) :
    ∀ (suffix pre : List String) (st : RepoState) (i : Nat),
    L = pre ++ suffix →
    st.assets = s0.assets.filter (aliveAfter s0 L pre) →
    ∀ op ∈ (unifyAllLoop L noCancel st suffix i).ops,
      ∃ nm h t, L.filter (fun b => adName s0 b == nm) = h :: t ∧ ¬ (t = []) ∧
        op = (adObj s0 h, t.map (adObj s0)) := by
  intro suffix
  induction suffix with
  | nil =>
    intro pre st i _ _ op hop
    simp only [unifyAllLoop] at hop
    cases hop
  | cons a rest ih =>
    intro pre st i hsplit hstate op hop
    have haL : a ∈ L := by
      rw [hsplit]
      exact List.mem_append.mpr (Or.inr (List.mem_cons_self a rest))
    have hmid : a ∉ pre ++ rest := by
      have h2 : (pre ++ a :: rest).Nodup := by
        rw [← hsplit]
        exact hndL
      exact (List.nodup_cons.mp (List.nodup_middle.mp h2)).1
    have hanotpre : a ∉ pre := fun h => hmid (List.mem_append.mpr (Or.inl h))
    have harest : a ∉ rest := fun h => hmid (List.mem_append.mpr (Or.inr h))
    obtain ⟨xa, hxa, hxap⟩ := hliveL a haL
    have hfinds0 : findAssetData s0 a = some xa := by
      unfold findAssetData
      exact find?_path_eq_some s0.assets xa a hnd0 hxa hxap
    have hnameA : adName s0 a = xa.name := by
      unfold adName
      rw [hfinds0]
    have hsplit' : L = (pre ++ [a]) ++ rest := by
      rw [hsplit, List.append_assoc]
      rfl
    have hndst : (st.assets.map (fun x => x.path)).Nodup := by
      rw [hstate]
      exact List.Nodup.sublist (List.Sublist.map _ (List.filter_sublist _)) hnd0
    have hndust : (st.assets.map (fun x => x.uid)).Nodup := by
      rw [hstate]
      exact List.Nodup.sublist (List.Sublist.map _ (List.filter_sublist _)) hndu
    cases hAlive : aliveAfter s0 L pre xa with
    | false =>
      have hfst : findAssetData st a = none := by
        unfold findAssetData
        rw [hstate]
        exact find?_filter_unique_neg s0.assets _ a xa hnd0 hxa hxap hAlive
      have hpn : adName st a = "" := by
        unfold adName
        rw [hfst]
      have hpo : adObj st a = none := by
        unfold adObj
        rw [hfst]
      have hpp : adPath st a = "" := by
        unfold adPath
        rw [hfst]
      simp only [unifyAllLoop, hpn, hpo, hpp] at hop
      by_cases hmf : L.filter (fun b => adName st b == "" && !(b == "")) = []
      · rw [hmf] at hop
        rw [if_pos (show (([] : List String).map (adObj st)).isEmpty = true from
          rfl), if_neg (show ¬ noCancel i = true from Bool.false_ne_true)] at hop
        dsimp only at hop
        have hstate' : st.assets = s0.assets.filter (aliveAfter s0 L (pre ++ [a])) := by
          rw [hstate]
          apply List.filter_congr
          intro x hx
          refine (aliveAfter_extend s0 L pre a x ?_).symm
          intro h t1 t2 hg hha
          subst hha
          have haf : h ∈ L.filter (fun b => adName s0 b == x.name) := by
            rw [hg]
            exact List.mem_cons_self _ _
          have h2 := (List.mem_filter.mp haf).2
          have hxn : x.name = xa.name := by
            rw [hnameA] at h2
            have h2b : xa.name = x.name := by simpa using h2
            exact h2b.symm
          have hgx : L.filter (fun b => adName s0 b == xa.name) = h :: t1 :: t2 := by
            rw [← hxn]
            exact hg
          unfold aliveAfter at hAlive
          rw [hgx] at hAlive
          dsimp only at hAlive
          rw [hxap] at hAlive
          simp at hAlive
        exact ih (pre ++ [a]) st (i + 1) hsplit' hstate' op hop
      · obtain ⟨c0, cs, hcs⟩ : ∃ c0 cs,
            L.filter (fun b => adName st b == "" && !(b == "")) = c0 :: cs := by
          cases hls : L.filter (fun b => adName st b == "" && !(b == "")) with
          | nil => exact absurd hls hmf
          | cons c0 cs => exact ⟨c0, cs, rfl⟩
        rw [hcs] at hop
        rw [if_neg (show ¬ (((c0 :: cs).map (adObj st)).isEmpty = true) by
          simp)] at hop
        have hce : consolidateAssets st none ((c0 :: cs).map (adObj st)) =
            .error () := rfl
        rw [hce] at hop
        dsimp only at hop
        cases hop
    | true =>
      have hfst : findAssetData st a = some xa := by
        unfold findAssetData
        rw [hstate]
        exact find?_filter_unique_pos s0.assets _ a xa hnd0 hxa hxap hAlive
      have hpn : adName st a = xa.name := by
        unfold adName
        rw [hfst]
      have hpo : adObj st a = some xa.uid := by
        unfold adObj
        rw [hfst]
      have hpp : adPath st a = a := by
        unfold adPath
        rw [hfst]
        exact hxap
      have hpreg : pre.filter (fun b => adName s0 b == xa.name) = [] := by
        cases hpf : pre.filter (fun b => adName s0 b == xa.name) with
        | nil => rfl
        | cons p0 ps =>
          exfalso
          have hg : L.filter (fun b => adName s0 b == xa.name) =
              p0 :: (ps ++ (a :: rest).filter (fun b => adName s0 b == xa.name)) := by
            rw [hsplit, List.filter_append, hpf]
            rfl
          have hain : a ∈ (a :: rest).filter (fun b => adName s0 b == xa.name) :=
            List.mem_filter.mpr ⟨List.mem_cons_self a rest, by simp [hnameA]⟩
          cases ht : ps ++ (a :: rest).filter (fun b => adName s0 b == xa.name) with
          | nil =>
            have h2 : a ∈ ps ++ (a :: rest).filter
                (fun b => adName s0 b == xa.name) :=
              List.mem_append.mpr (Or.inr hain)
            rw [ht] at h2
            cases h2
          | cons t1 t2 =>
            have hg2 : L.filter (fun b => adName s0 b == xa.name) =
                p0 :: t1 :: t2 := by
              rw [hg, ht]
            have hp0pre : p0 ∈ pre := List.mem_of_mem_filter (show p0 ∈
              pre.filter (fun b => adName s0 b == xa.name) by
                rw [hpf]
                exact List.mem_cons_self _ _)
            have hap0 : ¬ (xa.path = p0) := by
              rw [hxap]
              intro h
              exact hanotpre (h ▸ hp0pre)
            unfold aliveAfter at hAlive
            rw [hg2] at hAlive
            dsimp only at hAlive
            have e1 : pre.contains p0 = true := by simpa using hp0pre
            have e2 : (xa.path == p0) = false := by simp [hap0]
            have e3 : L.contains xa.path = true := by
              rw [hxap]
              simpa using haL
            rw [e1, e2, e3] at hAlive
            simp at hAlive
      have hgeq : L.filter (fun b => adName s0 b == xa.name) =
          a :: rest.filter (fun b => adName s0 b == xa.name) := by
        have hstep : List.filter (fun b => adName s0 b == xa.name) (a :: rest) =
            a :: List.filter (fun b => adName s0 b == xa.name) rest := by
          rw [List.filter_cons_of_pos]
          simp [hnameA]
        rw [hsplit, List.filter_append, hpreg, List.nil_append, hstep]
      have halive' : ∀ b ∈ rest.filter (fun b => adName s0 b == xa.name),
          ∃ y, y ∈ s0.assets ∧ y.path = b ∧ y.name = xa.name ∧
            aliveAfter s0 L pre y = true := by
        intro b hb
        have hbrest : b ∈ rest := List.mem_of_mem_filter hb
        have hbL : b ∈ L := by
          rw [hsplit]
          exact List.mem_append.mpr (Or.inr (List.mem_cons_of_mem a hbrest))
        obtain ⟨y, hy, hyp⟩ := hliveL b hbL
        have hyname : y.name = xa.name := by
          have h2 := (List.mem_filter.mp hb).2
          have h3 : adName s0 b = y.name := adName_of_asset s0 b y hnd0 hy hyp
          rw [h3] at h2
          simpa using h2
        refine ⟨y, hy, hyp, hyname, ?_⟩
        cases hgg : rest.filter (fun b => adName s0 b == xa.name) with
        | nil => exact absurd (hgg ▸ hb) (List.not_mem_nil b)
        | cons c1 c2 =>
          unfold aliveAfter
          rw [hyname, hgeq, hgg]
          dsimp only
          have e1 : pre.contains a = false := by simpa using hanotpre
          rw [e1]
          rfl
      have hmatching : L.filter (fun b => adName st b == xa.name && !(b == a)) =
          rest.filter (fun b => adName s0 b == xa.name) := by
        rw [hsplit, List.filter_append]
        have hp1 : pre.filter (fun b => adName st b == xa.name && !(b == a)) = [] := by
          rw [List.filter_eq_nil_iff]
          intro p hp hcond
          have h2 := (Bool.and_eq_true _ _ |>.mp hcond).1
          have hpL : p ∈ L := by
            rw [hsplit]
            exact List.mem_append.mpr (Or.inl hp)
          obtain ⟨yp, hyp, hypp⟩ := hliveL p hpL
          cases hAp : aliveAfter s0 L pre yp with
          | true =>
            have hfp : findAssetData st p = some yp := by
              unfold findAssetData
              rw [hstate]
              exact find?_filter_unique_pos s0.assets _ p yp hnd0 hyp hypp hAp
            have h3 : adName st p = yp.name := by
              unfold adName
              rw [hfp]
            rw [h3] at h2
            have hypn : yp.name = xa.name := by simpa using h2
            have h4 : adName s0 p = xa.name := by
              rw [adName_of_asset s0 p yp hnd0 hyp hypp, hypn]
            have h5 : p ∈ pre.filter (fun b => adName s0 b == xa.name) :=
              List.mem_filter.mpr ⟨hp, by simp [h4]⟩
            rw [hpreg] at h5
            cases h5
          | false =>
            have hfp : findAssetData st p = none := by
              unfold findAssetData
              rw [hstate]
              exact find?_filter_unique_neg s0.assets _ p yp hnd0 hyp hypp hAp
            have h3 : adName st p = "" := by
              unfold adName
              rw [hfp]
            rw [h3] at h2
            have h4 : ("" : String) = xa.name := by simpa using h2
            exact (hnames xa hxa) h4.symm
        have hstep2 : List.filter (fun b => adName st b == xa.name && !(b == a))
            (a :: rest) =
            List.filter (fun b => adName st b == xa.name && !(b == a)) rest := by
          rw [List.filter_cons_of_neg]
          simp
        rw [hp1, List.nil_append, hstep2]
        apply List.filter_congr
        intro c hc
        have hcnea : ¬ (c = a) := fun h => harest (h ▸ hc)
        have hbna : (c == a) = false := by simp [hcnea]
        rw [hbna]
        simp only [Bool.not_false, Bool.and_true]
        have hcL : c ∈ L := by
          rw [hsplit]
          exact List.mem_append.mpr (Or.inr (List.mem_cons_of_mem a hc))
        obtain ⟨yc, hyc, hycp⟩ := hliveL c hcL
        have hcs0 : adName s0 c = yc.name := adName_of_asset s0 c yc hnd0 hyc hycp
        by_cases hcn : yc.name = xa.name
        · have hcg : c ∈ rest.filter (fun b => adName s0 b == xa.name) :=
            List.mem_filter.mpr ⟨hc, by rw [hcs0]; simp [hcn]⟩
          obtain ⟨y2, hy2, hy2p, hy2n, hy2alive⟩ := halive' c hcg
          have hyeq : y2 = yc := eq_of_path_eq_of_nodup s0.assets hnd0 y2 yc hy2
            hyc (by rw [hy2p, hycp])
          have hfc : findAssetData st c = some y2 := by
            unfold findAssetData
            rw [hstate]
            exact find?_filter_unique_pos s0.assets _ c y2 hnd0 hy2 hy2p hy2alive
          have h5 : adName st c = y2.name := by
            unfold adName
            rw [hfc]
          rw [h5, hcs0, hyeq]
        · cases hAc : aliveAfter s0 L pre yc with
          | true =>
            have hfc : findAssetData st c = some yc := by
              unfold findAssetData
              rw [hstate]
              exact find?_filter_unique_pos s0.assets _ c yc hnd0 hyc hycp hAc
            have h5 : adName st c = yc.name := by
              unfold adName
              rw [hfc]
            rw [h5, hcs0]
          | false =>
            have hfc : findAssetData st c = none := by
              unfold findAssetData
              rw [hstate]
              exact find?_filter_unique_neg s0.assets _ c yc hnd0 hyc hycp hAc
            have h5 : adName st c = "" := by
              unfold adName
              rw [hfc]
            rw [h5, hcs0]
            have e1 : (("" : String) == xa.name) = false := by
              cases h6 : (("" : String) == xa.name) with
              | false => rfl
              | true => exact absurd (by simpa using h6 : ("" : String) =
                  xa.name).symm (hnames xa hxa)
            have e2 : (yc.name == xa.name) = false := by
              cases h6 : (yc.name == xa.name) with
              | false => rfl
              | true => exact absurd (by simpa using h6) hcn
            rw [e1, e2]
      have hobj : (rest.filter (fun b => adName s0 b == xa.name)).map (adObj st) =
          (rest.filter (fun b => adName s0 b == xa.name)).map (adObj s0) := by
        apply List.map_congr_left
        intro b hb
        obtain ⟨y, hy, hyp, _, hAy⟩ := halive' b hb
        have h1 : findAssetData st b = some y := by
          unfold findAssetData
          rw [hstate]
          exact find?_filter_unique_pos s0.assets _ b y hnd0 hy hyp hAy
        have h2 : findAssetData s0 b = some y := by
          unfold findAssetData
          exact find?_path_eq_some s0.assets y b hnd0 hy hyp
        unfold adObj
        rw [h1, h2]
      simp only [unifyAllLoop, hpn, hpo, hpp] at hop
      rw [hmatching, hobj] at hop
      by_cases hg0 : rest.filter (fun b => adName s0 b == xa.name) = []
      · rw [hg0] at hop
        rw [if_pos (show (([] : List String).map (adObj s0)).isEmpty = true from
          rfl), if_neg (show ¬ noCancel i = true from Bool.false_ne_true)] at hop
        dsimp only at hop
        have hstate' : st.assets = s0.assets.filter (aliveAfter s0 L (pre ++ [a])) := by
          rw [hstate]
          apply List.filter_congr
          intro x hx
          refine (aliveAfter_extend s0 L pre a x ?_).symm
          intro h t1 t2 hg hha
          subst hha
          have haf : h ∈ L.filter (fun b => adName s0 b == x.name) := by
            rw [hg]
            exact List.mem_cons_self _ _
          have h2 := (List.mem_filter.mp haf).2
          have hxn : x.name = xa.name := by
            rw [hnameA] at h2
            have h2b : xa.name = x.name := by simpa using h2
            exact h2b.symm
          have hgx : L.filter (fun b => adName s0 b == xa.name) = h :: t1 :: t2 := by
            rw [← hxn]
            exact hg
          rw [hgeq, hg0] at hgx
          injection hgx with _ h3
          cases h3
        exact ih (pre ++ [a]) st (i + 1) hsplit' hstate' op hop
      · obtain ⟨c0, cs, hcs⟩ : ∃ c0 cs,
            rest.filter (fun b => adName s0 b == xa.name) = c0 :: cs := by
          cases hls : rest.filter (fun b => adName s0 b == xa.name) with
          | nil => exact absurd hls hg0
          | cons c0 cs => exact ⟨c0, cs, rfl⟩
        rw [hcs] at hop
        rw [if_neg (show ¬ (((c0 :: cs).map (adObj s0)).isEmpty = true) by
          simp)] at hop
        have hanyF : ((c0 :: cs).map (adObj s0)).any (fun d => d.isNone) = false := by
          rw [List.any_eq_false]
          intro d hd
          obtain ⟨b, hb, hbd⟩ := List.mem_map.mp hd
          have hbg : b ∈ rest.filter (fun b => adName s0 b == xa.name) := by
            rw [hcs]
            exact hb
          obtain ⟨y, hy, hyp, _, _⟩ := halive' b hbg
          have h2 : adObj s0 b = some y.uid := by
            unfold adObj findAssetData
            rw [find?_path_eq_some s0.assets y b hnd0 hy hyp]
          rw [← hbd, h2]
          simp
        have hxast : xa ∈ st.assets := by
          rw [hstate]
          exact List.mem_filter.mpr ⟨hxa, hAlive⟩
        have hfindu : st.assets.find? (fun x => x.uid == xa.uid) = some xa :=
          find?_uid_eq_some st.assets xa xa.uid hndust hxast rfl
        cases hcc : consolidateAssets st (some xa.uid) ((c0 :: cs).map (adObj s0)) with
        | error e =>
          rw [hcc] at hop
          dsimp only at hop
          cases hop
        | ok s2 =>
          rw [hcc] at hop
          dsimp only at hop
          rw [if_neg (show ¬ noCancel i = true from Bool.false_ne_true)] at hop
          dsimp only at hop
          have hs2 : s2.assets = st.assets.filter (fun y =>
              !((((c0 :: cs).map (adObj s0)).filterMap id).contains y.uid)) := by
            unfold consolidateAssets at hcc
            dsimp only at hcc
            rw [hanyF] at hcc
            rw [if_neg Bool.false_ne_true] at hcc
            rw [hfindu] at hcc
            dsimp only at hcc
            injection hcc with h
            rw [← h]
          cases List.mem_cons.mp hop with
          | inl hopEq =>
            refine ⟨xa.name, a, c0 :: cs, ?_, by simp, ?_⟩
            · rw [hgeq, hcs]
            · rw [hopEq]
              have h6 : adObj s0 a = some xa.uid := by
                unfold adObj
                rw [hfinds0]
              rw [h6]
          | inr hoptl =>
            have hdupchar : ∀ x ∈ s0.assets,
                (((c0 :: cs).map (adObj s0)).filterMap id).contains x.uid =
                (c0 :: cs).contains x.path := by
              intro x hx
              cases hxc : (c0 :: cs).contains x.path with
              | true =>
                have hxin : x.path ∈ c0 :: cs := by simpa using hxc
                have h2 : adObj s0 x.path = some x.uid := by
                  unfold adObj findAssetData
                  rw [find?_path_eq_some s0.assets x x.path hnd0 hx rfl]
                have h3 : (some x.uid) ∈ (c0 :: cs).map (adObj s0) :=
                  List.mem_map.mpr ⟨x.path, hxin, h2⟩
                have h4 : x.uid ∈ ((c0 :: cs).map (adObj s0)).filterMap id :=
                  List.mem_filterMap.mpr ⟨some x.uid, h3, rfl⟩
                simpa using h4
              | false =>
                have hxout : x.path ∉ c0 :: cs := by simpa using hxc
                have h4 : x.uid ∉ ((c0 :: cs).map (adObj s0)).filterMap id := by
                  intro h5
                  obtain ⟨d, hd, hdeq⟩ := List.mem_filterMap.mp h5
                  obtain ⟨b, hb, hbd⟩ := List.mem_map.mp hd
                  have hbg : b ∈ rest.filter (fun b => adName s0 b == xa.name) := by
                    rw [hcs]
                    exact hb
                  obtain ⟨y, hy, hyp, _, _⟩ := halive' b hbg
                  have h6 : adObj s0 b = some y.uid := by
                    unfold adObj findAssetData
                    rw [find?_path_eq_some s0.assets y b hnd0 hy hyp]
                  rw [h6] at hbd
                  rw [← hbd] at hdeq
                  have h7 : y.uid = x.uid := by
                    injection (by simpa using hdeq : some y.uid = some x.uid)
                  have h8 : y = x := eq_of_uid_eq_of_nodup s0.assets hndu y x hy hx h7
                  have h9 : x.path = b := by
                    rw [← h8]
                    exact hyp
                  exact hxout (h9 ▸ hb)
                simpa using h4
            have hstate2 : s2.assets = s0.assets.filter
                (aliveAfter s0 L (pre ++ [a])) := by
              rw [hs2, hstate, List.filter_filter]
              apply List.filter_congr
              intro x hx
              dsimp only
              rw [hdupchar x hx]
              have hxnotg : x.name = xa.name → x.path ≠ a → x.path ∈ L →
                  x.path ∈ c0 :: cs := by
                intro hxn hpa hxL
                have h7 : x.path ∈ L.filter (fun b => adName s0 b == x.name) :=
                  List.mem_filter.mpr ⟨hxL, by
                    rw [adName_of_asset s0 x.path x hnd0 hx rfl]
                    simp⟩
                rw [hxn, hgeq, hcs] at h7
                cases List.mem_cons.mp h7 with
                | inl h8 => exact absurd h8 hpa
                | inr h8 => exact h8
              have hgnotx : x.path ∈ c0 :: cs → x.name = xa.name := by
                intro hmem
                have hbg : x.path ∈ rest.filter (fun b => adName s0 b == xa.name) := by
                  rw [hcs]
                  exact hmem
                have h2 := (List.mem_filter.mp hbg).2
                have h3 : adName s0 x.path = x.name :=
                  adName_of_asset s0 x.path x hnd0 hx rfl
                rw [h3] at h2
                simpa using h2
              unfold aliveAfter
              cases hgx : L.filter (fun b => adName s0 b == x.name) with
              | nil =>
                dsimp only
                rw [Bool.and_true]
                have hxnot : x.path ∉ c0 :: cs := by
                  intro hmem
                  have h5 : L.filter (fun b => adName s0 b == x.name) =
                      a :: c0 :: cs := by
                    rw [hgnotx hmem, hgeq, hcs]
                  rw [hgx] at h5
                  cases h5
                have e4 : (c0 :: cs).contains x.path = false := by simpa using hxnot
                rw [e4]
                rfl
              | cons h tl =>
                cases tl with
                | nil =>
                  dsimp only
                  rw [Bool.and_true]
                  have hxnot : x.path ∉ c0 :: cs := by
                    intro hmem
                    have h5 : L.filter (fun b => adName s0 b == x.name) =
                        a :: c0 :: cs := by
                      rw [hgnotx hmem, hgeq, hcs]
                    rw [hgx] at h5
                    injection h5 with _ h6
                    cases h6
                  have e4 : (c0 :: cs).contains x.path = false := by simpa using hxnot
                  rw [e4]
                  rfl
                | cons t1 t2 =>
                  dsimp only
                  by_cases hxn : x.name = xa.name
                  · have h5 : L.filter (fun b => adName s0 b == x.name) =
                        a :: c0 :: cs := by
                      rw [hxn, hgeq, hcs]
                    have h5c := h5
                    rw [hgx] at h5c
                    injection h5c with hha h6
                    have hp1 : pre.contains h = false := by
                      rw [hha]
                      simpa using hanotpre
                    have hp2 : (pre ++ [a]).contains h = true := by
                      rw [hha]
                      simp
                    rw [hp1, hp2]
                    simp only [Bool.false_and, Bool.not_false, Bool.and_true,
                      Bool.true_and]
                    by_cases hpa : x.path = a
                    · have e1 : (x.path == h) = true := by
                        rw [hha]
                        simp [hpa]
                      have e2 : (c0 :: cs).contains x.path = false := by
                        have h7 : x.path ∉ c0 :: cs := by
                          rw [hpa]
                          intro hmem
                          have h8 : a ∈ rest := List.mem_of_mem_filter (show a ∈
                            rest.filter (fun b => adName s0 b == xa.name) by
                              rw [hcs]
                              exact hmem)
                          exact harest h8
                        simpa using h7
                      rw [e1, e2]
                      rfl
                    · have e1 : (x.path == h) = false := by
                        rw [hha]
                        simp [hpa]
                      rw [e1]
                      simp only [Bool.not_false, Bool.true_and]
                      cases hLc : L.contains x.path with
                      | true =>
                        have hxL : x.path ∈ L := by simpa using hLc
                        have h7 : x.path ∈ c0 :: cs := hxnotg hxn hpa hxL
                        have e4 : (c0 :: cs).contains x.path = true := by
                          simpa using h7
                        rw [e4]
                      | false =>
                        have hxnL : x.path ∉ L := by simpa using hLc
                        have e4 : (c0 :: cs).contains x.path = false := by
                          have h7 : x.path ∉ c0 :: cs := by
                            intro hmem
                            have h8 : x.path ∈ rest := List.mem_of_mem_filter
                              (show x.path ∈ rest.filter
                                (fun b => adName s0 b == xa.name) by
                                rw [hcs]
                                exact hmem)
                            exact hxnL (by
                              rw [hsplit]
                              exact List.mem_append.mpr
                                (Or.inr (List.mem_cons_of_mem a h8)))
                          simpa using h7
                        rw [e4]
                  · have hha : ¬ (h = a) := by
                      intro hha
                      have haf : h ∈ L.filter (fun b => adName s0 b == x.name) := by
                        rw [hgx]
                        exact List.mem_cons_self _ _
                      have h2 := (List.mem_filter.mp haf).2
                      rw [hha, hnameA] at h2
                      have h2b : xa.name = x.name := by simpa using h2
                      exact hxn h2b.symm
                    rw [contains_append_singleton pre a h hha]
                    have e4 : (c0 :: cs).contains x.path = false := by
                      have h7 : x.path ∉ c0 :: cs := fun hmem => hxn (hgnotx hmem)
                      simpa using h7
                    rw [e4]
                    rfl
            exact ih (pre ++ [a]) s2 (i + 1) hsplit' hstate2 op hoptl

/-- C6: canonical-entry selection for duplicate groups.  Interactive path
(`unify_selected_asset_duplicates`): whenever a Consolidate op is produced,
its canonical entry is exactly the caller-selected asset.  Batch path
(`unify_duplicates`, over a repository with distinct paths, distinct
identities and no empty display names): every consolidation the batch hands
to the engine and the engine performs acts on one whole display-name
duplicate group of the scan listing — the canonical entry is the group's
first member in snapshot order, and the duplicates are exactly the
remaining group members, in order. -/
theorem c6_canonical_selection (wp : String) (s : RepoState)
    (hnd : (s.assets.map (fun a => a.path)).Nodup)
    (hndu : (s.assets.map (fun a => a.uid)).Nodup)
    (hnames : ∀ x ∈ s.assets, ¬ x.name = "") :
    (∀ (sel : Nat) (cancel : Nat → Bool) (c : Nat) (ds : List (Option Nat)),
      (unify_selected_asset_duplicates sel wp s cancel).op = some (c, ds) →
        c = sel) ∧
    (∀ op ∈ (unify_duplicates wp s noCancel).ops,
      ∃ nm h t, (listAssets wp s).filter (fun b => adName s b == nm) = h :: t ∧
        ¬ (t = []) ∧ op = (adObj s h, t.map (adObj s))) := by
  constructor
  · intro sel cancel c ds h
    unfold unify_selected_asset_duplicates at h
    dsimp only at h
    split at h
    · dsimp only at h
      cases h
    · split at h
      · dsimp only at h
        injection h with h2
        injection h2 with h3 h4
        exact h3.symm
      · dsimp only at h
        injection h with h2
        injection h2 with h3 h4
        exact h3.symm
  · intro op hop
    have hlive : ∀ b ∈ listAssets wp s, ∃ x, x ∈ s.assets ∧ x.path = b := by
      intro b hb
      obtain ⟨x, hx, hxp, _⟩ := listAssets_live wp s b hb
      exact ⟨x, hx, hxp⟩
    have hstate : s.assets = s.assets.filter
        (aliveAfter s (listAssets wp s) []) := by
      have hall : ∀ x ∈ s.assets, aliveAfter s (listAssets wp s) [] x = true := by
        intro x hx
        unfold aliveAfter
        cases hg : (listAssets wp s).filter (fun b => adName s b == x.name) with
        | nil => rfl
        | cons h t =>
          cases t with
          | nil => rfl
          | cons t1 t2 => rfl
      exact (List.filter_eq_self.mpr hall).symm
    exact unifyLoop_ops_group s (listAssets wp s) hnd hndu hnames
      (listAssets_nodup wp s hnd) hlive (listAssets wp s) [] s 0 rfl hstate op hop

/-- C6 witness: on a three-member duplicate group the interactive run's op
is canonical-by-selection, and every batch consolidation is a whole group
with its snapshot-order head as canonical. -/
theorem c6_canonical_selection_witness :
    (∀ c ds, (unify_selected_asset_duplicates 0 "/Game/" sC6 noCancel).op =
      some (c, ds) → c = 0) ∧
    (∀ op ∈ (unify_duplicates "/Game/" sC6 noCancel).ops,
      ∃ nm h t, (listAssets "/Game/" sC6).filter (fun b => adName sC6 b == nm) =
        h :: t ∧ ¬ (t = []) ∧ op = (adObj sC6 h, t.map (adObj sC6))) := by
  have h := c6_canonical_selection "/Game/" sC6 (by decide) (by decide) (by decide)
  exact ⟨fun c ds => h.1 0 noCancel c ds, h.2⟩
